import Mathlib

set_option maxHeartbeats 1000000

/-!
Verification development for the `fox` terminal text editor
(`src/fox.rs` of LinuxIris/fox).

The editor state (`struct Fox`) and its editing, navigation, search and
overlay operations are embedded shallowly:

* a text line is a `List Char` (one element per logical character; the
  source stores `String` and indexes by byte, which coincides for ASCII —
  the spec canonicalizes columns as logical character counts);
* the cursor and the highlight anchor are `(column, row)` pairs, matching
  the source tuples `(u16, u16)` where `.0` is the column and `.1` the row,
  with machine integers widened to `Nat` (all call sites move by 1, far
  from the 2^16 wrap);
* terminal size queries (`size()`) are modelled by a constant `height`
  field carried in the state;
* functions whose Rust body can panic (a `todo!()` placeholder, an
  `unwrap`/`expect`, or an out-of-range index/slice) return `Option Fox`,
  `none` representing the panic;
* file-system reads/writes are external; `save` keeps only its state
  effects, and `loadInit` takes the already-split line list of the file
  (`none` = the path does not exist).

Rendering (`redraw`), colors, themes and syntax highlighting are external
collaborators and are not modelled.
-/

/-- The four overlay kinds of the source enum `PromptType`. -/
inductive PromptType where
  | UnsavedQuit
  | Find
  | Help
  | GoToLine
deriving DecidableEq

/-- Source `struct Prompt`: an overlay kind together with its input buffer. -/
structure Prompt where
  prompt : PromptType
  buf : List Char
deriving DecidableEq

/-- A (column, row) pair: `x` is the column (source tuple field `.0`),
`y` the row (field `.1`). -/
structure Pos where
  x : Nat
  y : Nat
deriving DecidableEq

/-- The editor state, source `struct Fox` restricted to the fields the core
state machine reads or writes.  `height` stands for the terminal height
returned by `size()`. -/
structure Fox where
  text : List (List Char)
  cursor : Pos
  highlight : Pos
  scroll : Nat
  dirty : Bool
  prompt : Option Prompt
  popup : Option Prompt
  status : List Char
  height : Nat
deriving DecidableEq

/-- The line stored at row `y` (`[]` when the row does not exist). -/
def lineAt (st : Fox) (y : Nat) : List Char :=
  match st.text.get? y with
  | some line => line
  | none => []

/-- Length of the line stored at row `y`. -/
def lineLenAt (st : Fox) (y : Nat) : Nat :=
  (lineAt st y).length

/-- Source `cursor_start_of_line`: zero the cursor and highlight columns. -/
def cursor_start_of_line (st : Fox) : Fox :=
  { st with cursor := { st.cursor with x := 0 },
            highlight := { st.highlight with x := 0 } }

/-- Source `cursor_end_of_line`: set cursor and highlight columns to the
current line length (no-op when the cursor row does not exist). -/
def cursor_end_of_line (st : Fox) : Fox :=
  match st.text.get? st.cursor.y with
  | some line =>
    { st with cursor := { st.cursor with x := line.length },
              highlight := { st.highlight with x := line.length } }
  | none => st

/-- The row `cursor_vertical` moves to before its bounds check: the source's
three-way branch on the sign of `i` and on `cursor.1 > 0`. -/
def vRow (st : Fox) (i : Int) : Nat :=
  if 0 < i then st.cursor.y + i.toNat
  else if 0 < st.cursor.y then st.cursor.y - i.natAbs
  else st.cursor.y

/-- The scroll adjustment at the end of `cursor_vertical` (the subtraction
`scroll - 1` is truncated; the source would wrap a `u16`, but the branch is
taken only when `scroll > cursor.y ≥ 0`). -/
def scroll_adjust_vertical (st : Fox) : Fox :=
  let offset : Int := (st.cursor.y : Int) - (st.scroll : Int)
  if (st.height : Int) - 2 ≤ offset then { st with scroll := st.scroll + 1 }
  else if offset < 0 then { st with scroll := st.scroll - 1 }
  else st

/-- Source `cursor_vertical`: move the row by `i`, restore the old row if the
target row does not exist, clamp the column to the target line's length,
collapse the highlight onto the cursor, then adjust the scroll. -/
def cursor_vertical (st : Fox) (i : Int) : Fox :=
  let old := st.cursor.y
  let st1 := { st with cursor := { st.cursor with y := vRow st i } }
  let st2 :=
    match st1.text.get? st1.cursor.y with
    | some line =>
      if line.length < st1.cursor.x then
        { st1 with cursor := { st1.cursor with x := line.length } }
      else st1
    | none => { st1 with cursor := { st1.cursor with y := old } }
  let st3 := { st2 with highlight := st2.cursor }
  scroll_adjust_vertical st3

/-- Source `cursor_horizontal`.  With an active selection the cursor
collapses to the selection's right (`i > 0`) or left endpoint; the
multi-line selection arm is a `todo!()` panic (`none`).  With an empty
selection the column moves by `i`, wrapping to the previous line's end at
column 0 moving left and to the next line's start when moving past the end
of the line; the bounds check indexes `text[cursor.y]`, a panic (`none`)
when that row does not exist. -/
def cursor_horizontal (st : Fox) (i : Int) : Option Fox :=
  if st.highlight ≠ st.cursor then
    if st.highlight.y = st.cursor.y then
      let s := Pos.mk (min st.highlight.x st.cursor.x) st.cursor.y
      let e := Pos.mk (max st.highlight.x st.cursor.x) st.cursor.y
      let st1 := if 0 < i then { st with cursor := e } else { st with cursor := s }
      some { st1 with highlight := st1.cursor }
    else none
  else
    let old := st.cursor.x
    let old_y := st.cursor.y
    let st1 :=
      if 0 < i then { st with cursor := { st.cursor with x := st.cursor.x + i.toNat } }
      else if 0 < st.cursor.x then
        { st with cursor := { st.cursor with x := st.cursor.x - i.natAbs } }
      else
        let stv := cursor_vertical st (-1)
        if stv.cursor.y ≠ old_y then cursor_end_of_line stv else stv
    match st1.text.get? st1.cursor.y with
    | none => none
    | some line =>
      let st2 :=
        if line.length < st1.cursor.x then
          let stv := cursor_vertical st1 1
          if stv.cursor.y ≠ old_y then cursor_start_of_line stv
          else { stv with cursor := { stv.cursor with x := old } }
        else st1
      some { st2 with highlight := st2.cursor }

/-- Source `highlight_horizontal`: move only the highlight column by `i`,
restoring it when it would exceed the highlight row's line length; the
length check indexes `text[highlight.y]`, a panic (`none`) when that row
does not exist. -/
def highlight_horizontal (st : Fox) (i : Int) : Option Fox :=
  let old := st.highlight.x
  let st1 :=
    if 0 < i then { st with highlight := { st.highlight with x := st.highlight.x + i.toNat } }
    else if 0 < st.highlight.x then
      { st with highlight := { st.highlight with x := st.highlight.x - i.natAbs } }
    else st
  match st1.text.get? st1.highlight.y with
  | none => none
  | some line =>
    some (if line.length < st1.highlight.x
          then { st1 with highlight := { st1.highlight with x := old } }
          else st1)

/-- Source `go_to_line`: clamp the target to the last row, zero the column,
collapse the highlight row, then adjust the scroll. -/
def go_to_line (st : Fox) (line : Nat) : Fox :=
  let i := min line (st.text.length - 1)
  let st1 := { st with cursor := { st.cursor with y := i } }
  let st2 := { st1 with highlight := { st1.highlight with y := st1.cursor.y } }
  let st3 := cursor_start_of_line st2
  let offset : Int := (st3.cursor.y : Int) - (st3.scroll : Int)
  if (st3.height : Int) - 2 ≤ offset then { st3 with scroll := st3.scroll + offset.toNat }
  else if offset < 0 then { st3 with scroll := st3.scroll - offset.natAbs }
  else st3

/-- Repeated `String::pop`: remove the last character `k` times. -/
def popN (l : List Char) : Nat → List Char
  | 0 => l
  | k + 1 => popN l.dropLast k

/-- Rust `Vec::insert` / the `right` insertion of `enter`: insert `a` before
index `n`.  The source panics when `n` exceeds the length; all call sites
pass `cursor.y + 1 ≤ text.length`, where this total version coincides. -/
def insertIdxL : Nat → α → List α → List α
  | 0, a, l => a :: l
  | _ + 1, _, [] => []
  | n + 1, a, x :: xs => x :: insertIdxL n a xs

/-- Source `push_char`.  With an overlay active the character goes to its
input buffer; otherwise it is inserted at the cursor column (`split_at` is
modelled by `take`/`drop`, which coincide for the in-range columns of
reachable states) and the cursor moves right through `cursor_horizontal`. -/
def push_char (st : Fox) (c : Char) : Option Fox :=
  match st.popup with
  | some p => some { st with popup := some { p with buf := p.buf ++ [c] } }
  | none =>
  match st.prompt with
  | some p => some { st with prompt := some { p with buf := p.buf ++ [c] } }
  | none =>
  let st1 := { st with dirty := true }
  match st1.text.get? st1.cursor.y with
  | none => some st1
  | some line =>
    if st1.cursor.x = 0 then
      let st2 := { st1 with text := st1.text.set st1.cursor.y (c :: line) }
      cursor_horizontal st2 1
    else
      let result := line.take st1.cursor.x ++ c :: line.drop st1.cursor.x
      let st2 := { st1 with text := st1.text.set st1.cursor.y result }
      cursor_horizontal st2 1

/-- The `remove` branch of `pop_char`: clone the current line (`unwrap`, a
panic — `none` — when the row does not exist), remove it, move to the end of
the previous line, and append the clone there. -/
def pop_char_remove (st2 : Fox) : Option Fox :=
  match st2.text.get? st2.cursor.y with
  | none => none
  | some cur =>
    let st3 := { st2 with text := st2.text.eraseIdx st2.cursor.y }
    let st4 := cursor_end_of_line (cursor_vertical st3 (-1))
    match st4.text.get? st4.cursor.y with
    | some line => some { st4 with text := st4.text.set st4.cursor.y (line ++ cur) }
    | none => some st4

/-- Source `pop_char` (Backspace).  Overlay buffers lose their last
character.  A same-row selection removes the column range; the multi-line
selection arm is a `todo!()` panic (`none`).  With an empty selection the
character before the cursor is removed, or at column 0 of a row `> 0` the
current line is removed and appended to the previous line (the source
`unwrap` there is a panic, `none`, when the row does not exist). -/
def pop_char (st : Fox) : Option Fox :=
  match st.popup with
  | some p => some { st with popup := some { p with buf := p.buf.dropLast } }
  | none =>
  match st.prompt with
  | some p => some { st with prompt := some { p with buf := p.buf.dropLast } }
  | none =>
  let st1 := { st with dirty := true }
  if st1.highlight ≠ st1.cursor then
    if st1.highlight.y = st1.cursor.y then
      let max_x := max st1.highlight.x st1.cursor.x
      let pop_count := max_x - min st1.highlight.x st1.cursor.x
      match st1.text.get? st1.cursor.y with
      | some line =>
        let result := popN (line.take max_x) pop_count ++ line.drop max_x
        let st2 := { st1 with text := st1.text.set st1.cursor.y result }
        cursor_horizontal st2 (-(pop_count : Int))
      | none => some st1
    else none
  else
    match
      (match st1.text.get? st1.cursor.y with
       | some line =>
         if st1.cursor.x = 0 then some (st1.cursor.y != 0, st1)
         else
           let result := (line.take st1.cursor.x).dropLast ++ line.drop st1.cursor.x
           let st2 := { st1 with text := st1.text.set st1.cursor.y result }
           (cursor_horizontal st2 (-1)).map (fun st3 => (false, st3))
       | none => some (false, st1)) with
    | none => none
    | some (remove, st2) =>
      if remove then pop_char_remove st2
      else some st2

/-- Source `pop_char_del` (Delete).  Only acts without an overlay; a
non-empty selection is delegated to `pop_char`; otherwise the character at
the cursor is removed, and at or past the end of the line nothing happens
(the early `return`). -/
def pop_char_del (st : Fox) : Option Fox :=
  if st.prompt.isNone && st.popup.isNone then
    let st1 := { st with dirty := true }
    if st1.highlight ≠ st1.cursor then pop_char st1
    else
      match st1.text.get? st1.cursor.y with
      | some line =>
        if line.length ≤ st1.cursor.x then some st1
        else
          let result := line.take st1.cursor.x ++ (line.drop st1.cursor.x).drop 1
          some { st1 with text := st1.text.set st1.cursor.y result }
      | none => some st1
  else some st

/-- Source `enter` (the line-split method): split the current line at the
cursor column — at or past the end of the line insert a fresh empty line —
and move to the start of the next row. -/
def enter (st : Fox) : Fox :=
  match st.text.get? st.cursor.y with
  | none => st
  | some line =>
    if line.length ≤ st.cursor.x then
      let st1 := { st with text := insertIdxL (st.cursor.y + 1) [] st.text }
      cursor_start_of_line (cursor_vertical st1 1)
    else
      let left := line.take st.cursor.x
      let right := line.drop st.cursor.x
      let st1 := { st with text := insertIdxL (st.cursor.y + 1) right (st.text.set st.cursor.y left) }
      cursor_start_of_line (cursor_vertical st1 1)

/-- Source `swap_down`: when a next line exists, exchange it with the
current line and follow it with `cursor_vertical 1`; the `expect` on the
current line is a panic (`none`) when the cursor row does not exist. -/
def swap_down (st : Fox) : Option Fox :=
  match st.text.get? (st.cursor.y + 1) with
  | none => some st
  | some line_down =>
    match st.text.get? st.cursor.y with
    | none => none
    | some line =>
      let st1 := { st with text := (st.text.set st.cursor.y line_down).set (st.cursor.y + 1) line }
      let st2 := cursor_vertical st1 1
      some { st2 with dirty := true }

/-- Source `swap_up`: move up, `swap_down`, move up again. -/
def swap_up (st : Fox) : Option Fox :=
  let st1 := cursor_vertical st (-1)
  (swap_down st1).map (fun st2 => cursor_vertical st2 (-1))

/-- Source `save`: the file write is external; in the state it clears the
dirty flag and records the transient status message. -/
def save (st : Fox) : Fox :=
  { st with dirty := false, status := ['S','a','v','e','d','!'] }

/-- Source method `prompt`: unconditionally install a fresh prompt overlay. -/
def open_prompt (st : Fox) (p : PromptType) : Fox :=
  { st with prompt := some { prompt := p, buf := [] } }

/-- Source method `popup`: unconditionally install a fresh popup overlay. -/
def open_popup (st : Fox) (p : PromptType) : Fox :=
  { st with popup := some { prompt := p, buf := [] } }

/-- Rust `str::find` for a literal pattern: index of the leftmost
occurrence (`some 0` for the empty pattern). -/
def strFind (pat : List Char) : List Char → Option Nat
  | [] => if pat.isPrefixOf ([] : List Char) then some 0 else none
  | c :: t =>
    if pat.isPrefixOf (c :: t) then some 0
    else (strFind pat t).map (fun n => n + 1)

/-- The state update `find_from` performs on its first match: highlight at
the found index, cursor at found index + pattern length, both rows at the
matching line, then the scroll reconciliation with a 3-row bottom margin
(`height -= 3`; terminals of fewer than 3 rows, where the source `u16`
subtraction would wrap, are not modelled). -/
def find_success (st : Fox) (s : List Char) (i x : Nat) : Fox :=
  let st1 := { st with highlight := { st.highlight with x := x } }
  let st2 := { st1 with cursor := { st1.cursor with x := st1.highlight.x + s.length } }
  let st3 := { st2 with cursor := { st2.cursor with y := i } }
  let st4 := { st3 with highlight := { st3.highlight with y := st3.cursor.y } }
  let hgt : Int := (st4.height : Int) - 3
  let d1 : Int := (st4.cursor.y : Int) - (st4.scroll : Int)
  if hgt < d1 then { st4 with scroll := st4.scroll + (d1 - hgt).toNat }
  else if d1 < 0 then
    let st5 := { st4 with scroll := 0 }
    let d2 : Int := (st5.cursor.y : Int) - (st5.scroll : Int)
    if hgt < d2 then { st5 with scroll := st5.scroll + (d2 - hgt).toNat }
    else st5
  else st4

/-- The scan loop of `find_from`, iterating rows `i, i+1, …` while `fuel`
rows remain.  The row equal to the cursor row is restricted to the suffix
starting at the cursor column (the source slice `line[cursor.0..]`, a panic
— `none` — when the column exceeds the line length). -/
def find_from_go (st : Fox) (s : List Char) : Nat → Nat → Option (Fox × Bool)
  | _, 0 => some (st, false)
  | i, fuel + 1 =>
    match st.text.get? i with
    | none => find_from_go st s (i + 1) fuel
    | some line =>
      if i = st.cursor.y then
        if line.length < st.cursor.x then none
        else
          match strFind s (line.drop st.cursor.x) with
          | some x => some (find_success st s i x, true)
          | none => find_from_go st s (i + 1) fuel
      else
        match strFind s line with
        | some x => some (find_success st s i x, true)
        | none => find_from_go st s (i + 1) fuel

/-- Source `find_from`: scan rows `y .. text.length - 1`. -/
def find_from (st : Fox) (s : List Char) (y : Nat) : Option (Fox × Bool) :=
  find_from_go st s y (st.text.length - y)

/-- Source `find_next`: scan from the cursor row, and on failure rescan
from row 0. -/
def find_next (st : Fox) (s : List Char) : Option (Fox × Bool) :=
  match find_from st s st.cursor.y with
  | none => none
  | some (st1, true) => some (st1, true)
  | some (st1, false) => find_from st1 s 0

/-- Decimal digit value. -/
def digitVal (c : Char) : Option Nat :=
  if c.isDigit then some (c.toNat - 48) else none

/-- Rust `str::parse::<u16>`: an optional leading plus sign, then at least
one decimal digit, value at most 65535. -/
def parse_u16 (s : List Char) : Option Nat :=
  let t := match s with
    | '+' :: rest => rest
    | _ => s
  match t with
  | [] => none
  | _ =>
    match t.foldl (fun acc c =>
        match acc, digitVal c with
        | some n, some d => some (n * 10 + d)
        | _, _ => none) (some 0) with
    | some n => if n ≤ 65535 then some n else none
    | none => none

/-- Close the overlay `handle_prompt` was invoked for. -/
def close_overlay (st : Fox) (is_popup : Bool) : Fox :=
  if is_popup then { st with popup := none } else { st with prompt := none }

/-- Source `handle_prompt` (the Enter handler's helper).  The returned
`Bool` is the source's return value: `true` ends the editor session.  The
kind dispatch: UnsavedQuit ends the session on "y"/"ye"/"yes" and
otherwise closes the overlay; Find searches, records a status message on
failure, and closes the overlay exactly when the arm value `!found` is
true; Help closes; GoToLine parses, jumps on success, and closes. -/
def handle_prompt (st : Fox) (p : Prompt) (is_popup : Bool) : Option (Bool × Fox) :=
  match p.prompt with
  | PromptType.UnsavedQuit =>
    if p.buf = ['y'] ∨ p.buf = ['y','e'] ∨ p.buf = ['y','e','s'] then some (true, st)
    else some (false, close_overlay st is_popup)
  | PromptType.Find =>
    match find_next st p.buf with
    | none => none
    | some (st1, found) =>
      if found then some (false, st1)
      else
        let st2 := { st1 with status :=
          ['C','o','u','l','d',' ','n','o','t',' ','f','i','n','d',' ',
           's','t','r','i','n','g','!'] }
        some (false, close_overlay st2 is_popup)
  | PromptType.Help => some (false, close_overlay st is_popup)
  | PromptType.GoToLine =>
    let st1 :=
      match parse_u16 p.buf with
      | some num => go_to_line st (max num 1 - 1)
      | none => st
    some (false, close_overlay st1 is_popup)

/-- The Enter key of the main loop: dispatch to the popup's handler first,
then the prompt's, else split the line and mark the buffer dirty.  The
`Bool` is `true` when the session ends (`break 'app`). -/
def enter_key (st : Fox) : Option (Bool × Fox) :=
  match st.popup with
  | some p => handle_prompt st p true
  | none =>
    match st.prompt with
    | some p => handle_prompt st p false
    | none => some (false, { enter st with dirty := true })

/-- The Escape key: close the popup if open, else the prompt if open. -/
def esc_key (st : Fox) : Fox :=
  if st.popup.isSome then { st with popup := none }
  else if st.prompt.isSome then { st with prompt := none }
  else st

/-- One key event of the main loop (`run`), at the granularity the loop
dispatches: the control commands, plain typing and editing keys, and
navigation.  `pasteLine` is the per-line tail of the clipboard paste
(`enter()` followed by `cursor_start_of_line()`); the pasted characters
themselves go through `key`. -/
inductive Op where
  | ctrlQ | ctrlS | ctrlF | ctrlH | ctrlK
  | ctrlDown | ctrlUp
  | key (c : Char)
  | backspace | del | enterKey | escKey
  | up | down | right | left
  | shiftLeft | shiftRight
  | pasteLine

/-- Result of one loop iteration: a next state, a clean session end
(`break 'app` or a declined quit), or a panic of the process. -/
inductive StepRes where
  | next (st : Fox)
  | quit
  | crash
deriving DecidableEq

/-- Lift a panic-modelling `Option` into a step result. -/
def liftO : Option Fox → StepRes
  | some st => StepRes.next st
  | none => StepRes.crash

/-- The main loop body, one key event. -/
def step (op : Op) (st : Fox) : StepRes :=
  match op with
  | Op.ctrlQ =>
    if st.dirty then StepRes.next (open_prompt st PromptType.UnsavedQuit) else StepRes.quit
  | Op.ctrlS => StepRes.next (save st)
  | Op.ctrlF => StepRes.next (open_prompt st PromptType.Find)
  | Op.ctrlH => StepRes.next (open_popup st PromptType.Help)
  | Op.ctrlK => StepRes.next (open_prompt st PromptType.GoToLine)
  | Op.ctrlDown => liftO (swap_down st)
  | Op.ctrlUp => liftO (swap_up st)
  | Op.key c => liftO (push_char st c)
  | Op.backspace => liftO (pop_char st)
  | Op.del => liftO (pop_char_del st)
  | Op.enterKey =>
    match enter_key st with
    | none => StepRes.crash
    | some (true, _) => StepRes.quit
    | some (false, st1) => StepRes.next st1
  | Op.escKey => StepRes.next (esc_key st)
  | Op.up => StepRes.next (cursor_vertical st (-1))
  | Op.down => StepRes.next (cursor_vertical st 1)
  | Op.right => liftO (cursor_horizontal st 1)
  | Op.left => liftO (cursor_horizontal st (-1))
  | Op.shiftRight => liftO (highlight_horizontal st 1)
  | Op.shiftLeft => liftO (highlight_horizontal st (-1))
  | Op.pasteLine => StepRes.next (cursor_start_of_line (enter st))

/-- The freshly loaded state of `Fox::new`: `file` is the line-split
content of an existing file (a 0-byte file splits into no lines at all) or
`none` for a path that does not exist, which seeds a single empty line. -/
def loadInit (file : Option (List (List Char))) (height : Nat) : Fox :=
  { text :=
      match file with
      | some ls => ls
      | none => [[]]
    cursor := ⟨0, 0⟩, highlight := ⟨0, 0⟩, scroll := 0,
    dirty := false, prompt := none, popup := none, status := [], height := height }

/-- States reachable from `st0` by main-loop iterations that continue the
session. -/
inductive ReachableFrom (st0 : Fox) : Fox → Prop where
  | refl : ReachableFrom st0 st0
  | tail {st st' : Fox} {op : Op} :
      ReachableFrom st0 st → step op st = StepRes.next st' → ReachableFrom st0 st'

/-- The state invariant: cursor row in range, cursor column at most the
line length, highlight on the cursor row with an in-range column. -/
def FoxInv (st : Fox) : Prop :=
  st.cursor.y < st.text.length ∧
  st.cursor.x ≤ lineLenAt st st.cursor.y ∧
  st.highlight.y = st.cursor.y ∧
  st.highlight.x ≤ lineLenAt st st.cursor.y

instance (st : Fox) : Decidable (FoxInv st) := by
  unfold FoxInv
  infer_instance

/-! ### List helper lemmas -/

theorem getQ_some_lt {α : Type} {l : List α} {i : Nat} {a : α}
    (h : l.get? i = some a) : i < l.length := by
  induction l generalizing i with
  | nil => simp [List.get?] at h
  | cons x xs ih =>
    cases i with
    | zero => simp
    | succ n =>
      simp only [List.get?] at h
      exact Nat.succ_lt_succ (ih h)

theorem getQ_isSome_of_lt {α : Type} {l : List α} {i : Nat}
    (h : i < l.length) : ∃ a, l.get? i = some a := by
  induction l generalizing i with
  | nil => simp at h
  | cons x xs ih =>
    cases i with
    | zero => exact ⟨x, rfl⟩
    | succ n => exact ih (Nat.lt_of_succ_lt_succ h)

theorem getQ_set_self {α : Type} {l : List α} {i : Nat} (a : α)
    (h : i < l.length) : (l.set i a).get? i = some a := by
  induction l generalizing i with
  | nil => simp at h
  | cons x xs ih =>
    cases i with
    | zero => rfl
    | succ n => exact ih (Nat.lt_of_succ_lt_succ h)

theorem getQ_set_ne {α : Type} {l : List α} {i j : Nat} (a : α)
    (h : i ≠ j) : (l.set i a).get? j = l.get? j := by
  induction l generalizing i j with
  | nil => simp
  | cons x xs ih =>
    cases i with
    | zero =>
      cases j with
      | zero => exact absurd rfl h
      | succ m => rfl
    | succ n =>
      cases j with
      | zero => rfl
      | succ m => exact ih (fun hc => h (congrArg Nat.succ hc))

theorem set_getQ_self {α : Type} {l : List α} {i : Nat} {a : α}
    (h : l.get? i = some a) : l.set i a = l := by
  induction l generalizing i with
  | nil => rfl
  | cons x xs ih =>
    cases i with
    | zero =>
      simp only [List.get?] at h
      cases h
      rfl
    | succ n =>
      simp only [List.get?] at h
      simp [List.set, ih h]

theorem getQ_eraseIdx_of_lt {α : Type} {l : List α} {i j : Nat}
    (h : j < i) : (l.eraseIdx i).get? j = l.get? j := by
  induction l generalizing i j with
  | nil => rfl
  | cons x xs ih =>
    cases i with
    | zero => exact absurd h (Nat.not_lt_zero j)
    | succ n =>
      cases j with
      | zero => rfl
      | succ m => exact ih (Nat.lt_of_succ_lt_succ h)

theorem len_eraseIdx {α : Type} {l : List α} {i : Nat}
    (h : i < l.length) : (l.eraseIdx i).length = l.length - 1 := by
  induction l generalizing i with
  | nil => simp at h
  | cons x xs ih =>
    cases i with
    | zero => simp [List.eraseIdx]
    | succ n =>
      have hx := ih (Nat.lt_of_succ_lt_succ h)
      have hpos : 0 < xs.length := Nat.lt_of_le_of_lt (Nat.zero_le n) (Nat.lt_of_succ_lt_succ h)
      simp only [List.eraseIdx, List.length_cons, hx]
      omega

theorem len_popN (l : List Char) (k : Nat) : (popN l k).length = l.length - k := by
  induction k generalizing l with
  | zero => rfl
  | succ n ih =>
    simp only [popN, ih, List.length_dropLast]
    omega

theorem len_insertIdxL {α : Type} {l : List α} {n : Nat} (a : α)
    (h : n ≤ l.length) : (insertIdxL n a l).length = l.length + 1 := by
  induction l generalizing n with
  | nil =>
    cases n with
    | zero => rfl
    | succ m => simp at h
  | cons x xs ih =>
    cases n with
    | zero => rfl
    | succ m =>
      simp only [insertIdxL, List.length_cons]
      rw [ih (Nat.le_of_succ_le_succ h)]

theorem getQ_insertIdxL_self {α : Type} {l : List α} {n : Nat} (a : α)
    (h : n ≤ l.length) : (insertIdxL n a l).get? n = some a := by
  induction l generalizing n with
  | nil =>
    cases n with
    | zero => rfl
    | succ m => simp at h
  | cons x xs ih =>
    cases n with
    | zero => rfl
    | succ m => exact ih (Nat.le_of_succ_le_succ h)

theorem len_take_of_le {α : Type} {l : List α} {n : Nat}
    (h : n ≤ l.length) : (l.take n).length = n := by
  simp [List.length_take, Nat.min_eq_left h]

theorem take_len_app {α : Type} (A B : List α) : (A ++ B).take A.length = A := by
  simp

theorem take_len_succ_app {α : Type} (A B : List α) (c : α) :
    (A ++ c :: B).take (A.length + 1) = A ++ [c] := by
  induction A with
  | nil => rfl
  | cons x xs ih =>
    simp only [List.cons_append, List.length_cons, List.take]
    exact congrArg (List.cons x) ih

theorem drop_len_succ_app {α : Type} (A B : List α) (c : α) :
    (A ++ c :: B).drop (A.length + 1) = B := by
  induction A with
  | nil => rfl
  | cons x xs ih => exact ih

theorem dropLast_app_single {α : Type} (A : List α) (c : α) :
    (A ++ [c]).dropLast = A := by
  simp

/-! ### `strFind` lemmas -/

theorem strFind_isPrefixOf {s l : List Char} {x : Nat}
    (h : strFind s l = some x) : s.isPrefixOf (l.drop x) = true := by
  induction l generalizing x with
  | nil =>
    simp only [strFind] at h
    by_cases hp : s.isPrefixOf ([] : List Char)
    · rw [if_pos hp] at h
      injection h with h
      subst h
      exact hp
    · rw [if_neg hp] at h
      exact absurd h (by simp)
  | cons c t ih =>
    simp only [strFind] at h
    by_cases hp : s.isPrefixOf (c :: t)
    · rw [if_pos hp] at h
      injection h with h
      subst h
      exact hp
    · rw [if_neg hp] at h
      cases hf : strFind s t with
      | none =>
        rw [hf] at h
        exact absurd h (by simp)
      | some n =>
        rw [hf] at h
        injection h with h
        subst h
        exact ih hf

theorem isPrefixOf_length {s l : List Char}
    (h : s.isPrefixOf l = true) : s.length ≤ l.length := by
  induction s generalizing l with
  | nil => simp
  | cons a s' ih =>
    cases l with
    | nil => simp [List.isPrefixOf] at h
    | cons b t =>
      simp only [List.isPrefixOf, Bool.and_eq_true] at h
      exact Nat.succ_le_succ (ih h.2)

theorem strFind_le {s l : List Char} {x : Nat}
    (h : strFind s l = some x) : x + s.length ≤ l.length := by
  induction l generalizing x with
  | nil =>
    simp only [strFind] at h
    by_cases hp : s.isPrefixOf ([] : List Char)
    · rw [if_pos hp] at h
      injection h with h
      subst h
      simpa using isPrefixOf_length hp
    · rw [if_neg hp] at h
      exact absurd h (by simp)
  | cons c t ih =>
    simp only [strFind] at h
    by_cases hp : s.isPrefixOf (c :: t)
    · rw [if_pos hp] at h
      injection h with h
      subst h
      simpa using isPrefixOf_length hp
    · rw [if_neg hp] at h
      cases hf : strFind s t with
      | none =>
        rw [hf] at h
        exact absurd h (by simp)
      | some n =>
        rw [hf] at h
        injection h with h
        subst h
        have hx := ih hf
        simp only [List.length_cons]
        omega


/-! ### Projection and specification lemmas for the cursor operations -/

theorem lineLenAt_eq {st : Fox} {y : Nat} {line : List Char}
    (h : st.text.get? y = some line) : lineLenAt st y = line.length := by
  simp only [lineLenAt, lineAt]
  rw [h]

theorem lineLenAt_congr {st st' : Fox} (h : st'.text = st.text) (y : Nat) :
    lineLenAt st' y = lineLenAt st y := by
  simp only [lineLenAt, lineAt, h]

theorem scroll_adjust_vertical_core (st : Fox) :
    (scroll_adjust_vertical st).text = st.text ∧
    (scroll_adjust_vertical st).cursor = st.cursor ∧
    (scroll_adjust_vertical st).highlight = st.highlight ∧
    (scroll_adjust_vertical st).prompt = st.prompt ∧
    (scroll_adjust_vertical st).popup = st.popup ∧
    (scroll_adjust_vertical st).dirty = st.dirty := by
  simp only [scroll_adjust_vertical]
  split
  · exact ⟨rfl, rfl, rfl, rfl, rfl, rfl⟩
  · split
    · exact ⟨rfl, rfl, rfl, rfl, rfl, rfl⟩
    · exact ⟨rfl, rfl, rfl, rfl, rfl, rfl⟩

theorem cursor_vertical_text (st : Fox) (i : Int) :
    (cursor_vertical st i).text = st.text := by
  simp only [cursor_vertical]
  rw [(scroll_adjust_vertical_core _).1]
  split <;> first | rfl | (split <;> rfl)

theorem cursor_vertical_prompt (st : Fox) (i : Int) :
    (cursor_vertical st i).prompt = st.prompt := by
  simp only [cursor_vertical]
  rw [(scroll_adjust_vertical_core _).2.2.2.1]
  split <;> first | rfl | (split <;> rfl)

theorem cursor_vertical_popup (st : Fox) (i : Int) :
    (cursor_vertical st i).popup = st.popup := by
  simp only [cursor_vertical]
  rw [(scroll_adjust_vertical_core _).2.2.2.2.1]
  split <;> first | rfl | (split <;> rfl)

theorem cursor_vertical_dirty (st : Fox) (i : Int) :
    (cursor_vertical st i).dirty = st.dirty := by
  simp only [cursor_vertical]
  rw [(scroll_adjust_vertical_core _).2.2.2.2.2]
  split <;> first | rfl | (split <;> rfl)

theorem cursor_vertical_hl_eq (st : Fox) (i : Int) :
    (cursor_vertical st i).highlight = (cursor_vertical st i).cursor := by
  simp only [cursor_vertical]
  rw [(scroll_adjust_vertical_core _).2.2.1, (scroll_adjust_vertical_core _).2.1]

theorem cursor_vertical_cursor_some {st : Fox} {i : Int} {line : List Char}
    (h : st.text.get? (vRow st i) = some line) :
    (cursor_vertical st i).cursor = ⟨min st.cursor.x line.length, vRow st i⟩ := by
  simp only [cursor_vertical, h]
  rw [(scroll_adjust_vertical_core _).2.1]
  split
  · next hlt => simp [Nat.min_eq_right (Nat.le_of_lt hlt)]
  · next hlt => simp [Nat.min_eq_left (Nat.le_of_not_lt hlt)]

theorem cursor_vertical_cursor_none {st : Fox} {i : Int}
    (h : st.text.get? (vRow st i) = none) :
    (cursor_vertical st i).cursor = st.cursor := by
  simp only [cursor_vertical, h]
  rw [(scroll_adjust_vertical_core _).2.1]

theorem cursor_vertical_inv_of_some {st : Fox} {i : Int} {line : List Char}
    (h : st.text.get? (vRow st i) = some line) :
    FoxInv (cursor_vertical st i) := by
  have hc := cursor_vertical_cursor_some h
  have ht := cursor_vertical_text st i
  have hh := cursor_vertical_hl_eq st i
  have hlen : lineLenAt (cursor_vertical st i) (vRow st i) = line.length := by
    rw [lineLenAt_congr ht, lineLenAt_eq h]
  refine ⟨?_, ?_, ?_, ?_⟩
  · rw [hc, ht]
    exact getQ_some_lt h
  · rw [hc]
    simp only [hlen]
    exact Nat.min_le_right st.cursor.x line.length
  · rw [hh]
  · rw [hh, hc]
    simp only [hlen]
    exact Nat.min_le_right st.cursor.x line.length

theorem cursor_vertical_inv_of_valid {st : Fox} (i : Int)
    (hy : st.cursor.y < st.text.length)
    (hx : st.cursor.x ≤ lineLenAt st st.cursor.y) :
    FoxInv (cursor_vertical st i) := by
  cases hg : st.text.get? (vRow st i) with
  | some line => exact cursor_vertical_inv_of_some hg
  | none =>
    have hc := cursor_vertical_cursor_none hg
    have ht := cursor_vertical_text st i
    have hh := cursor_vertical_hl_eq st i
    refine ⟨?_, ?_, ?_, ?_⟩
    · rw [hc, ht]
      exact hy
    · rw [hc, lineLenAt_congr ht]
      exact hx
    · rw [hh]
    · rw [hh, hc, lineLenAt_congr ht]
      exact hx

theorem cursor_start_of_line_inv {st : Fox} (h : FoxInv st) :
    FoxInv (cursor_start_of_line st) := by
  obtain ⟨hy, _, hhy, _⟩ := h
  exact ⟨hy, Nat.zero_le _, hhy, Nat.zero_le _⟩

theorem cursor_end_of_line_some {st : Fox} {line : List Char}
    (h : st.text.get? st.cursor.y = some line) :
    cursor_end_of_line st =
      { st with cursor := { st.cursor with x := line.length },
                highlight := { st.highlight with x := line.length } } := by
  simp only [cursor_end_of_line]
  rw [h]

theorem cursor_end_of_line_none {st : Fox}
    (h : st.text.get? st.cursor.y = none) :
    cursor_end_of_line st = st := by
  simp only [cursor_end_of_line]
  rw [h]

theorem cursor_end_of_line_inv {st : Fox} (h : FoxInv st) :
    FoxInv (cursor_end_of_line st) := by
  obtain ⟨hy, hx, hhy, hhx⟩ := h
  cases hg : st.text.get? st.cursor.y with
  | some line =>
    rw [cursor_end_of_line_some hg]
    refine ⟨hy, ?_, hhy, ?_⟩ <;>
      simp only [lineLenAt, lineAt, hg, Nat.le_refl]
  | none =>
    rw [cursor_end_of_line_none hg]
    exact ⟨hy, hx, hhy, hhx⟩

theorem cursor_horizontal_sel_left {st : Fox} {i : Int}
    (hne : st.highlight ≠ st.cursor) (hyy : st.highlight.y = st.cursor.y)
    (hni : ¬ 0 < i) :
    cursor_horizontal st i =
      some { st with cursor := ⟨min st.highlight.x st.cursor.x, st.cursor.y⟩,
                     highlight := ⟨min st.highlight.x st.cursor.x, st.cursor.y⟩ } := by
  simp only [cursor_horizontal]
  rw [if_pos hne, if_pos hyy, if_neg hni]

theorem cursor_horizontal_sel_right {st : Fox} {i : Int}
    (hne : st.highlight ≠ st.cursor) (hyy : st.highlight.y = st.cursor.y)
    (hpi : 0 < i) :
    cursor_horizontal st i =
      some { st with cursor := ⟨max st.highlight.x st.cursor.x, st.cursor.y⟩,
                     highlight := ⟨max st.highlight.x st.cursor.x, st.cursor.y⟩ } := by
  simp only [cursor_horizontal]
  rw [if_pos hne, if_pos hyy, if_pos hpi]

theorem cursor_horizontal_pos1 {st : Fox} {line : List Char}
    (hsel : st.highlight = st.cursor)
    (hline : st.text.get? st.cursor.y = some line)
    (hb : st.cursor.x + 1 ≤ line.length) :
    cursor_horizontal st 1 =
      some { st with cursor := ⟨st.cursor.x + 1, st.cursor.y⟩,
                     highlight := ⟨st.cursor.x + 1, st.cursor.y⟩ } := by
  simp only [cursor_horizontal]
  rw [if_neg (not_not_intro hsel), if_pos (by decide : (0:Int) < 1)]
  simp only [Int.toNat_one]
  rw [hline]
  dsimp only
  rw [if_neg (Nat.not_lt.mpr hb)]

theorem cursor_horizontal_neg1 {st : Fox} {line : List Char}
    (hsel : st.highlight = st.cursor)
    (hline : st.text.get? st.cursor.y = some line)
    (hx0 : 0 < st.cursor.x)
    (hb : st.cursor.x - 1 ≤ line.length) :
    cursor_horizontal st (-1) =
      some { st with cursor := ⟨st.cursor.x - 1, st.cursor.y⟩,
                     highlight := ⟨st.cursor.x - 1, st.cursor.y⟩ } := by
  simp only [cursor_horizontal]
  rw [if_neg (not_not_intro hsel), if_neg (by decide : ¬ (0:Int) < -1), if_pos hx0]
  simp only [(by decide : (-1 : Int).natAbs = 1)]
  rw [hline]
  dsimp only
  rw [if_neg (Nat.not_lt.mpr hb)]

theorem vRow_one (st : Fox) : vRow st 1 = st.cursor.y + 1 := by
  simp [vRow]

theorem vRow_neg1_pos {st : Fox} (h : 0 < st.cursor.y) :
    vRow st (-1) = st.cursor.y - 1 := by
  simp [vRow, h]

theorem vRow_neg1_zero {st : Fox} (h : ¬ 0 < st.cursor.y) :
    vRow st (-1) = st.cursor.y := by
  simp [vRow, h]

theorem inv_set_hl_of (st : Fox) (hy : st.cursor.y < st.text.length)
    (hx : st.cursor.x ≤ lineLenAt st st.cursor.y) :
    FoxInv { st with highlight := st.cursor } :=
  ⟨hy, hx, rfl, hx⟩

/-- `lineLenAt` stated on the raw line list, convenient for rewriting when
the state is an explicit record. -/
def lineLenL (tx : List (List Char)) (y : Nat) : Nat :=
  match tx.get? y with
  | some l => l.length
  | none => 0

theorem lineLenAt_eq_lineLenL (st : Fox) (y : Nat) :
    lineLenAt st y = lineLenL st.text y := by
  simp only [lineLenAt, lineAt, lineLenL]
  cases st.text.get? y <;> rfl

theorem cursor_horizontal_inv {st : Fox} (i : Int) (h : FoxInv st) :
    ∃ st', cursor_horizontal st i = some st' ∧ FoxInv st' := by
  obtain ⟨hy, hx, hhy, hhx⟩ := h
  obtain ⟨line, hline⟩ := getQ_isSome_of_lt hy
  have hlen : lineLenAt st st.cursor.y = line.length := lineLenAt_eq hline
  by_cases hne : st.highlight = st.cursor
  case neg =>
    by_cases hpi : 0 < i
    · rw [cursor_horizontal_sel_right hne hhy hpi]
      refine ⟨_, rfl, hy, ?_, rfl, ?_⟩ <;>
        exact Nat.max_le.mpr ⟨hhx, hx⟩
    · rw [cursor_horizontal_sel_left hne hhy hpi]
      refine ⟨_, rfl, hy, ?_, rfl, ?_⟩ <;>
        exact Nat.le_trans (Nat.min_le_right _ _) hx
  case pos =>
    simp only [cursor_horizontal]
    rw [if_neg (not_not_intro hne)]
    by_cases hpi : 0 < i
    · rw [if_pos hpi]
      rw [hline]
      dsimp only
      by_cases hov : line.length < st.cursor.x + i.toNat
      · rw [if_pos hov]
        have hA : ({ st with cursor := { st.cursor with x := st.cursor.x + i.toNat } } : Fox).text.get?
            (vRow { st with cursor := { st.cursor with x := st.cursor.x + i.toNat } } 1) =
            st.text.get? (st.cursor.y + 1) := by
          rw [vRow_one]
        cases hg2 : st.text.get? (st.cursor.y + 1) with
        | some l2 =>
          have hsome : ({ st with cursor := { st.cursor with x := st.cursor.x + i.toNat } } : Fox).text.get?
              (vRow { st with cursor := { st.cursor with x := st.cursor.x + i.toNat } } 1) = some l2 := by
            rw [hA, hg2]
          have hcv := cursor_vertical_cursor_some hsome
          rw [vRow_one] at hcv
          have hneq : (cursor_vertical
              { st with cursor := { st.cursor with x := st.cursor.x + i.toNat } } 1).cursor.y ≠
              st.cursor.y := by
            rw [hcv]
            exact Nat.succ_ne_self st.cursor.y
          rw [if_pos hneq]
          refine ⟨_, rfl, ?_⟩
          have hinv2 := cursor_start_of_line_inv (cursor_vertical_inv_of_some hsome)
          exact inv_set_hl_of _ hinv2.1 hinv2.2.1
        | none =>
          have hnone : ({ st with cursor := { st.cursor with x := st.cursor.x + i.toNat } } : Fox).text.get?
              (vRow { st with cursor := { st.cursor with x := st.cursor.x + i.toNat } } 1) = none := by
            rw [hA, hg2]
          have hcv := cursor_vertical_cursor_none hnone
          have hneq : ¬ ((cursor_vertical
              { st with cursor := { st.cursor with x := st.cursor.x + i.toNat } } 1).cursor.y ≠
              st.cursor.y) := by
            rw [hcv]
            exact not_not_intro rfl
          rw [if_neg hneq]
          refine ⟨_, rfl, ?_⟩
          have htxt := cursor_vertical_text
            ({ st with cursor := { st.cursor with x := st.cursor.x + i.toNat } } : Fox) 1
          refine inv_set_hl_of _ ?_ ?_
          · show (cursor_vertical _ 1).cursor.y < (cursor_vertical _ 1).text.length
            rw [hcv, htxt]
            exact hy
          · rw [lineLenAt_eq_lineLenL]
            dsimp only
            rw [congrArg Pos.y hcv]
            dsimp only
            rw [htxt]
            dsimp only
            rw [lineLenAt_eq_lineLenL] at hx
            exact hx
      · rw [if_neg hov]
        refine ⟨_, rfl, ?_⟩
        exact inv_set_hl_of _ hy (by
          rw [lineLenAt_eq (show ({ st with cursor := { st.cursor with x := st.cursor.x + i.toNat } } : Fox).text.get?
            st.cursor.y = some line from hline)]
          exact Nat.le_of_not_lt hov)
    · rw [if_neg hpi]
      by_cases hx0 : 0 < st.cursor.x
      · rw [if_pos hx0]
        rw [hline]
        dsimp only
        have hb : ¬ line.length < st.cursor.x - i.natAbs := by
          rw [hlen] at hx
          exact Nat.not_lt.mpr (Nat.le_trans (Nat.sub_le _ _) hx)
        rw [if_neg hb]
        refine ⟨_, rfl, ?_⟩
        exact inv_set_hl_of _ hy (by
          rw [lineLenAt_eq (show ({ st with cursor := { st.cursor with x := st.cursor.x - i.natAbs } } : Fox).text.get?
            st.cursor.y = some line from hline)]
          rw [hlen] at hx
          exact Nat.le_trans (Nat.sub_le _ _) hx)
      · rw [if_neg hx0]
        have hxz : st.cursor.x = 0 := Nat.eq_zero_of_not_pos hx0
        by_cases hy0 : 0 < st.cursor.y
        · -- column 0 of a row > 0: wrap to the end of the previous line
          have hy1 : st.cursor.y - 1 < st.text.length :=
            Nat.lt_of_le_of_lt (Nat.sub_le _ _) hy
          obtain ⟨lp, hlp⟩ := getQ_isSome_of_lt hy1
          have hsome : st.text.get? (vRow st (-1)) = some lp := by
            rw [vRow_neg1_pos hy0]
            exact hlp
          have hcv := cursor_vertical_cursor_some hsome
          rw [vRow_neg1_pos hy0] at hcv
          have hneq : (cursor_vertical st (-1)).cursor.y ≠ st.cursor.y := by
            rw [hcv]
            exact Nat.ne_of_lt (Nat.sub_lt hy0 Nat.one_pos)
          rw [if_pos hneq]
          have hget2 : (cursor_vertical st (-1)).text.get?
              (cursor_vertical st (-1)).cursor.y = some lp := by
            rw [cursor_vertical_text, hcv]
            exact hlp
          rw [cursor_end_of_line_some hget2]
          have hget3 : st.text.get? (cursor_vertical st (-1)).cursor.y = some lp := by
            rw [hcv]
            exact hlp
          rw [show (({ cursor_vertical st (-1) with
              cursor := { (cursor_vertical st (-1)).cursor with x := lp.length },
              highlight := { (cursor_vertical st (-1)).highlight with x := lp.length } } : Fox)).text.get?
              (cursor_vertical st (-1)).cursor.y = some lp from by
            rw [cursor_vertical_text]
            exact hget3]
          dsimp only
          rw [if_neg (Nat.lt_irrefl lp.length)]
          refine ⟨_, rfl, ?_⟩
          refine inv_set_hl_of _ ?_ ?_
          · show (cursor_vertical st (-1)).cursor.y < (cursor_vertical st (-1)).text.length
            rw [cursor_vertical_text, hcv]
            exact hy1
          · show lp.length ≤ lineLenAt _ (cursor_vertical st (-1)).cursor.y
            rw [lineLenAt_eq (show (({ cursor_vertical st (-1) with
              cursor := { (cursor_vertical st (-1)).cursor with x := lp.length },
              highlight := { (cursor_vertical st (-1)).highlight with x := lp.length } } : Fox)).text.get?
              (cursor_vertical st (-1)).cursor.y = some lp from by
              rw [cursor_vertical_text]
              exact hget3)]
        · -- column 0 of row 0: cursor_vertical leaves the position in place
          have hsome : st.text.get? (vRow st (-1)) = some line := by
            rw [vRow_neg1_zero hy0]
            exact hline
          have hcv := cursor_vertical_cursor_some hsome
          rw [vRow_neg1_zero hy0] at hcv
          have hneq : ¬ ((cursor_vertical st (-1)).cursor.y ≠ st.cursor.y) := by
            rw [hcv]
            exact not_not_intro rfl
          rw [if_neg hneq]
          have hget2 : (cursor_vertical st (-1)).text.get?
              (cursor_vertical st (-1)).cursor.y = some line := by
            rw [cursor_vertical_text, hcv]
            exact hline
          rw [hget2]
          dsimp only
          rw [if_neg (show ¬ line.length < (cursor_vertical st (-1)).cursor.x from by
            rw [hcv]
            dsimp only
            rw [hxz]
            simp)]
          refine ⟨_, rfl, ?_⟩
          refine inv_set_hl_of _ ?_ ?_
          · show (cursor_vertical st (-1)).cursor.y < (cursor_vertical st (-1)).text.length
            rw [cursor_vertical_text, hcv]
            exact hy
          · show (cursor_vertical st (-1)).cursor.x ≤
              lineLenAt _ (cursor_vertical st (-1)).cursor.y
            rw [lineLenAt_congr (cursor_vertical_text st (-1)) _, hcv]
            dsimp only
            rw [hxz, lineLenAt_eq hline]
            simp

theorem highlight_horizontal_inv {st : Fox} (i : Int) (h : FoxInv st) :
    ∃ st', highlight_horizontal st i = some st' ∧ FoxInv st' := by
  obtain ⟨hy, hx, hhy, hhx⟩ := h
  obtain ⟨line, hline⟩ := getQ_isSome_of_lt hy
  have hlen := lineLenAt_eq hline
  have hlineh : st.text.get? st.highlight.y = some line := by
    rw [hhy]
    exact hline
  simp only [highlight_horizontal]
  by_cases hpi : 0 < i
  · rw [if_pos hpi]
    rw [hlineh]
    dsimp only
    by_cases hov : line.length < st.highlight.x + i.toNat
    · rw [if_pos hov]
      refine ⟨_, rfl, hy, hx, hhy, ?_⟩
      rw [lineLenAt_eq_lineLenL]
      dsimp only
      rw [lineLenAt_eq_lineLenL] at hhx
      exact hhx
    · rw [if_neg hov]
      refine ⟨_, rfl, hy, hx, hhy, ?_⟩
      rw [lineLenAt_eq_lineLenL]
      dsimp only
      rw [show lineLenL st.text st.cursor.y = line.length from by
        rw [← lineLenAt_eq_lineLenL]
        exact hlen]
      exact Nat.le_of_not_lt hov
  · rw [if_neg hpi]
    by_cases hx0 : 0 < st.highlight.x
    · rw [if_pos hx0]
      rw [hlineh]
      dsimp only
      have hle : st.highlight.x - i.natAbs ≤ line.length := by
        rw [hlen] at hhx
        exact Nat.le_trans (Nat.sub_le _ _) hhx
      rw [if_neg (Nat.not_lt.mpr hle)]
      refine ⟨_, rfl, hy, hx, hhy, ?_⟩
      rw [lineLenAt_eq_lineLenL]
      dsimp only
      rw [show lineLenL st.text st.cursor.y = line.length from by
        rw [← lineLenAt_eq_lineLenL]
        exact hlen]
      exact hle
    · rw [if_neg hx0]
      rw [hlineh]
      dsimp only
      have hle : st.highlight.x ≤ line.length := by
        rw [hlen] at hhx
        exact hhx
      rw [if_neg (Nat.not_lt.mpr hle)]
      exact ⟨_, rfl, hy, hx, hhy, hhx⟩

theorem go_to_line_inv {st : Fox} (n : Nat) (h : FoxInv st) :
    FoxInv (go_to_line st n) := by
  obtain ⟨hy, _, _, _⟩ := h
  have hi : min n (st.text.length - 1) < st.text.length := by omega
  simp only [go_to_line, cursor_start_of_line]
  split
  · exact ⟨hi, Nat.zero_le _, rfl, Nat.zero_le _⟩
  · split
    · exact ⟨hi, Nat.zero_le _, rfl, Nat.zero_le _⟩
    · exact ⟨hi, Nat.zero_le _, rfl, Nat.zero_le _⟩

theorem inv_congr {st st' : Fox} (h : FoxInv st) (ht : st'.text = st.text)
    (hc : st'.cursor = st.cursor) (hh : st'.highlight = st.highlight) :
    FoxInv st' := by
  obtain ⟨hy, hx, hhy, hhx⟩ := h
  refine ⟨?_, ?_, ?_, ?_⟩
  · rw [hc, ht]
    exact hy
  · rw [lineLenAt_eq_lineLenL, hc, ht, ← lineLenAt_eq_lineLenL]
    exact hx
  · rw [hh, hc]
    exact hhy
  · rw [lineLenAt_eq_lineLenL, hh, hc, ht, ← lineLenAt_eq_lineLenL]
    exact hhx

theorem lineLenL_set_self {tx : List (List Char)} {y : Nat} (l : List Char)
    (h : y < tx.length) : lineLenL (tx.set y l) y = l.length := by
  simp only [lineLenL]
  rw [getQ_set_self l h]

theorem push_char_popup {st : Fox} {p : Prompt} (c : Char) (h : st.popup = some p) :
    push_char st c = some { st with popup := some { p with buf := p.buf ++ [c] } } := by
  simp only [push_char, h]

theorem push_char_prompt {st : Fox} {p : Prompt} (c : Char)
    (hpo : st.popup = none) (h : st.prompt = some p) :
    push_char st c = some { st with prompt := some { p with buf := p.buf ++ [c] } } := by
  simp only [push_char, hpo, h]

theorem push_char_edit {st : Fox} {line : List Char} (c : Char)
    (hpo : st.popup = none) (hpr : st.prompt = none)
    (hsel : st.highlight = st.cursor)
    (hline : st.text.get? st.cursor.y = some line)
    (hx : st.cursor.x ≤ line.length) :
    push_char st c =
      some { st with
        text := st.text.set st.cursor.y
          (line.take st.cursor.x ++ c :: line.drop st.cursor.x),
        cursor := ⟨st.cursor.x + 1, st.cursor.y⟩,
        highlight := ⟨st.cursor.x + 1, st.cursor.y⟩,
        dirty := true } := by
  have hy := getQ_some_lt hline
  have hlen2 : (line.take st.cursor.x ++ c :: line.drop st.cursor.x).length
      = line.length + 1 := by
    rw [List.length_append, len_take_of_le hx, List.length_cons, List.length_drop]
    omega
  simp only [push_char, hpo, hpr]
  rw [hline]
  dsimp only
  by_cases hx0 : st.cursor.x = 0
  · rw [if_pos hx0]
    refine (@cursor_horizontal_pos1 _ (c :: line) ?_ ?_ ?_).trans ?_
    · exact hsel
    · exact getQ_set_self (c :: line) hy
    · show st.cursor.x + 1 ≤ (c :: line).length
      rw [List.length_cons]
      omega
    · rw [hx0]
      rfl
  · rw [if_neg hx0]
    refine (@cursor_horizontal_pos1 _ (line.take st.cursor.x ++ c :: line.drop st.cursor.x)
      ?_ ?_ ?_).trans ?_
    · exact hsel
    · exact getQ_set_self (line.take st.cursor.x ++ c :: line.drop st.cursor.x) hy
    · show st.cursor.x + 1 ≤ (line.take st.cursor.x ++ c :: line.drop st.cursor.x).length
      rw [hlen2]
      omega
    · rfl

theorem push_char_edit_sel {st : Fox} {line : List Char} (c : Char)
    (hpo : st.popup = none) (hpr : st.prompt = none)
    (hne : st.highlight ≠ st.cursor) (hyy : st.highlight.y = st.cursor.y)
    (hline : st.text.get? st.cursor.y = some line) :
    push_char st c =
      some { st with
        text := st.text.set st.cursor.y
          (line.take st.cursor.x ++ c :: line.drop st.cursor.x),
        cursor := ⟨max st.highlight.x st.cursor.x, st.cursor.y⟩,
        highlight := ⟨max st.highlight.x st.cursor.x, st.cursor.y⟩,
        dirty := true } := by
  simp only [push_char, hpo, hpr]
  rw [hline]
  dsimp only
  by_cases hx0 : st.cursor.x = 0
  · rw [if_pos hx0]
    refine (@cursor_horizontal_sel_right _ 1 ?_ ?_ ?_).trans ?_
    · exact hne
    · exact hyy
    · decide
    · rw [hx0]
      rfl
  · rw [if_neg hx0]
    refine (@cursor_horizontal_sel_right _ 1 ?_ ?_ ?_).trans ?_
    · exact hne
    · exact hyy
    · decide
    · rfl

theorem push_char_inv {st : Fox} (c : Char) (h : FoxInv st) :
    ∃ st', push_char st c = some st' ∧ FoxInv st' := by
  cases hpo : st.popup with
  | some p =>
    rw [push_char_popup c hpo]
    exact ⟨_, rfl, inv_congr h rfl rfl rfl⟩
  | none =>
    cases hpr : st.prompt with
    | some p =>
      rw [push_char_prompt c hpo hpr]
      exact ⟨_, rfl, inv_congr h rfl rfl rfl⟩
    | none =>
      obtain ⟨hy, hx, hhy, hhx⟩ := h
      obtain ⟨line, hline⟩ := getQ_isSome_of_lt hy
      rw [lineLenAt_eq hline] at hx
      rw [lineLenAt_eq hline] at hhx
      have hlen2 : (line.take st.cursor.x ++ c :: line.drop st.cursor.x).length
          = line.length + 1 := by
        rw [List.length_append, len_take_of_le hx, List.length_cons, List.length_drop]
        omega
      by_cases hsel : st.highlight = st.cursor
      · rw [push_char_edit c hpo hpr hsel hline hx]
        refine ⟨_, rfl, ?_, ?_, rfl, ?_⟩
        · simpa using hy
        all_goals
          rw [lineLenAt_eq_lineLenL]
          dsimp only
          rw [lineLenL_set_self _ hy, hlen2]
          omega
      · rw [push_char_edit_sel c hpo hpr hsel hhy hline]
        refine ⟨_, rfl, ?_, ?_, rfl, ?_⟩
        · simpa using hy
        all_goals
          rw [lineLenAt_eq_lineLenL]
          dsimp only
          rw [lineLenL_set_self _ hy, hlen2]
          exact Nat.le_trans (Nat.max_le.mpr ⟨hhx, hx⟩) (Nat.le_succ _)

theorem pop_char_popup {st : Fox} {p : Prompt} (h : st.popup = some p) :
    pop_char st = some { st with popup := some { p with buf := p.buf.dropLast } } := by
  simp only [pop_char, h]

theorem pop_char_prompt {st : Fox} {p : Prompt}
    (hpo : st.popup = none) (h : st.prompt = some p) :
    pop_char st = some { st with prompt := some { p with buf := p.buf.dropLast } } := by
  simp only [pop_char, hpo, h]

theorem pop_char_origin {st : Fox}
    (hpo : st.popup = none) (hpr : st.prompt = none)
    (hsel : st.highlight = st.cursor)
    (hx0 : st.cursor.x = 0) (hy0 : st.cursor.y = 0) :
    pop_char st = some { st with dirty := true } := by
  simp only [pop_char, hpo, hpr]
  rw [if_neg (not_not_intro hsel)]
  cases hline : st.text.get? st.cursor.y with
  | some line =>
    dsimp only
    rw [if_pos hx0]
    dsimp only
    rw [show (st.cursor.y != 0) = false from by rw [hy0]; rfl]
    rw [if_neg Bool.false_ne_true]
  | none =>
    dsimp only
    rw [if_neg Bool.false_ne_true]

theorem pop_char_no_line {st : Fox}
    (hpo : st.popup = none) (hpr : st.prompt = none)
    (hsel : st.highlight = st.cursor)
    (hline : st.text.get? st.cursor.y = none) :
    pop_char st = some { st with dirty := true } := by
  simp only [pop_char, hpo, hpr]
  rw [if_neg (not_not_intro hsel)]
  rw [hline]
  dsimp only
  rw [if_neg Bool.false_ne_true]

theorem pop_char_edit_mid {st : Fox} {line : List Char}
    (hpo : st.popup = none) (hpr : st.prompt = none)
    (hsel : st.highlight = st.cursor)
    (hline : st.text.get? st.cursor.y = some line)
    (hx0 : 0 < st.cursor.x) (hx : st.cursor.x ≤ line.length) :
    pop_char st =
      some { st with
        text := st.text.set st.cursor.y
          ((line.take st.cursor.x).dropLast ++ line.drop st.cursor.x),
        cursor := ⟨st.cursor.x - 1, st.cursor.y⟩,
        highlight := ⟨st.cursor.x - 1, st.cursor.y⟩,
        dirty := true } := by
  have hy := getQ_some_lt hline
  have hlen2 : ((line.take st.cursor.x).dropLast ++ line.drop st.cursor.x).length
      = line.length - 1 := by
    rw [List.length_append, List.length_dropLast, len_take_of_le hx, List.length_drop]
    omega
  have hch := @cursor_horizontal_neg1
    { text := st.text.set st.cursor.y
        ((line.take st.cursor.x).dropLast ++ line.drop st.cursor.x),
      cursor := st.cursor, highlight := st.highlight, scroll := st.scroll,
      dirty := true, prompt := none, popup := none, status := st.status,
      height := st.height }
    ((line.take st.cursor.x).dropLast ++ line.drop st.cursor.x)
    hsel (getQ_set_self _ hy) hx0
    (by
      show st.cursor.x - 1 ≤ ((line.take st.cursor.x).dropLast ++ line.drop st.cursor.x).length
      rw [hlen2]
      omega)
  simp only [pop_char, hpo, hpr]
  rw [if_neg (not_not_intro hsel)]
  rw [hline]
  dsimp only
  rw [if_neg (Nat.pos_iff_ne_zero.mp hx0)]
  rw [hch]
  dsimp only [Option.map]
  rw [if_neg Bool.false_ne_true]

theorem pop_char_sel {st : Fox} {line : List Char}
    (hpo : st.popup = none) (hpr : st.prompt = none)
    (hne : st.highlight ≠ st.cursor) (hyy : st.highlight.y = st.cursor.y)
    (hline : st.text.get? st.cursor.y = some line) :
    pop_char st =
      some { st with
        text := st.text.set st.cursor.y
          (popN (line.take (max st.highlight.x st.cursor.x))
            (max st.highlight.x st.cursor.x - min st.highlight.x st.cursor.x)
            ++ line.drop (max st.highlight.x st.cursor.x)),
        cursor := ⟨min st.highlight.x st.cursor.x, st.cursor.y⟩,
        highlight := ⟨min st.highlight.x st.cursor.x, st.cursor.y⟩,
        dirty := true } := by
  have hch := @cursor_horizontal_sel_left
    { text := st.text.set st.cursor.y
        (popN (line.take (max st.highlight.x st.cursor.x))
          (max st.highlight.x st.cursor.x - min st.highlight.x st.cursor.x)
          ++ line.drop (max st.highlight.x st.cursor.x)),
      cursor := st.cursor, highlight := st.highlight, scroll := st.scroll,
      dirty := true, prompt := none, popup := none, status := st.status,
      height := st.height }
    (-((max st.highlight.x st.cursor.x - min st.highlight.x st.cursor.x : Nat) : Int))
    hne hyy (by omega)
  simp only [pop_char, hpo, hpr]
  rw [if_pos hne, if_pos hyy]
  rw [hline]
  dsimp only
  rw [hch]


theorem pop_char_remove_inv {st2 : Fox}
    (hy : st2.cursor.y < st2.text.length) (hypos : 0 < st2.cursor.y) :
    ∃ st', pop_char_remove st2 = some st' ∧ FoxInv st' := by
  obtain ⟨cur, hcur⟩ := getQ_isSome_of_lt hy
  have hylt : st2.cursor.y - 1 < st2.text.length :=
    Nat.lt_of_le_of_lt (Nat.sub_le _ _) hy
  obtain ⟨lp, hlp⟩ := getQ_isSome_of_lt hylt
  have herase : (st2.text.eraseIdx st2.cursor.y).length = st2.text.length - 1 :=
    len_eraseIdx hy
  have hv : ({ st2 with text := st2.text.eraseIdx st2.cursor.y } : Fox).text.get?
      (vRow ({ st2 with text := st2.text.eraseIdx st2.cursor.y } : Fox) (-1)) = some lp := by
    rw [vRow_neg1_pos (show 0 < ({ st2 with
      text := st2.text.eraseIdx st2.cursor.y } : Fox).cursor.y from hypos)]
    show (st2.text.eraseIdx st2.cursor.y).get? (st2.cursor.y - 1) = some lp
    rw [getQ_eraseIdx_of_lt (Nat.sub_lt hypos Nat.one_pos)]
    exact hlp
  have hcv := cursor_vertical_cursor_some hv
  rw [vRow_neg1_pos (show 0 < ({ st2 with
    text := st2.text.eraseIdx st2.cursor.y } : Fox).cursor.y from hypos)] at hcv
  have htxtv := cursor_vertical_text
    ({ st2 with text := st2.text.eraseIdx st2.cursor.y } : Fox) (-1)
  have hhlv := cursor_vertical_hl_eq
    ({ st2 with text := st2.text.eraseIdx st2.cursor.y } : Fox) (-1)
  have hget2 : (cursor_vertical
      ({ st2 with text := st2.text.eraseIdx st2.cursor.y } : Fox) (-1)).text.get?
      (cursor_vertical
      ({ st2 with text := st2.text.eraseIdx st2.cursor.y } : Fox) (-1)).cursor.y
      = some lp := by
    rw [htxtv, congrArg Pos.y hcv]
    show (st2.text.eraseIdx st2.cursor.y).get? (st2.cursor.y - 1) = some lp
    rw [getQ_eraseIdx_of_lt (Nat.sub_lt hypos Nat.one_pos)]
    exact hlp
  have hyr : (cursor_vertical
      ({ st2 with text := st2.text.eraseIdx st2.cursor.y } : Fox) (-1)).cursor.y <
      (cursor_vertical
      ({ st2 with text := st2.text.eraseIdx st2.cursor.y } : Fox) (-1)).text.length := by
    rw [htxtv, congrArg Pos.y hcv]
    show st2.cursor.y - 1 < (st2.text.eraseIdx st2.cursor.y).length
    rw [herase]
    omega
  simp only [pop_char_remove]
  rw [hcur]
  dsimp only
  rw [cursor_end_of_line_some hget2]
  rw [show (({ cursor_vertical
      ({ st2 with text := st2.text.eraseIdx st2.cursor.y } : Fox) (-1) with
      cursor := { (cursor_vertical
        ({ st2 with text := st2.text.eraseIdx st2.cursor.y } : Fox) (-1)).cursor
        with x := lp.length },
      highlight := { (cursor_vertical
        ({ st2 with text := st2.text.eraseIdx st2.cursor.y } : Fox) (-1)).highlight
        with x := lp.length } } : Fox)).text.get?
      (cursor_vertical
        ({ st2 with text := st2.text.eraseIdx st2.cursor.y } : Fox) (-1)).cursor.y
      = some lp from hget2]
  dsimp only
  refine ⟨_, rfl, ?_, ?_, ?_, ?_⟩
  · show (cursor_vertical _ (-1)).cursor.y <
      ((cursor_vertical _ (-1)).text.set
        (cursor_vertical _ (-1)).cursor.y (lp ++ cur)).length
    rw [List.length_set]
    exact hyr
  · rw [lineLenAt_eq_lineLenL]
    show lp.length ≤ lineLenL
      ((cursor_vertical _ (-1)).text.set
        (cursor_vertical _ (-1)).cursor.y (lp ++ cur))
      (cursor_vertical _ (-1)).cursor.y
    rw [lineLenL_set_self (lp ++ cur) hyr]
    rw [List.length_append]
    omega
  · show (cursor_vertical _ (-1)).highlight.y = (cursor_vertical _ (-1)).cursor.y
    rw [hhlv]
  · rw [lineLenAt_eq_lineLenL]
    show lp.length ≤ lineLenL
      ((cursor_vertical _ (-1)).text.set
        (cursor_vertical _ (-1)).cursor.y (lp ++ cur))
      (cursor_vertical _ (-1)).cursor.y
    rw [lineLenL_set_self (lp ++ cur) hyr]
    rw [List.length_append]
    omega

theorem pop_char_merge_inv {st : Fox} {line : List Char}
    (hpo : st.popup = none) (hpr : st.prompt = none)
    (hsel : st.highlight = st.cursor)
    (hline : st.text.get? st.cursor.y = some line)
    (hx0 : st.cursor.x = 0) (hy0 : st.cursor.y ≠ 0)
    (hy : st.cursor.y < st.text.length) :
    ∃ st', pop_char st = some st' ∧ FoxInv st' := by
  simp only [pop_char, hpo, hpr]
  rw [if_neg (not_not_intro hsel)]
  rw [hline]
  dsimp only
  rw [if_pos hx0]
  dsimp only
  rw [if_pos (show (st.cursor.y != 0) = true from by simp [hy0])]
  exact pop_char_remove_inv hy (Nat.pos_of_ne_zero hy0)

theorem pop_char_inv {st : Fox} (h : FoxInv st) :
    ∃ st', pop_char st = some st' ∧ FoxInv st' := by
  cases hpo : st.popup with
  | some p =>
    rw [pop_char_popup hpo]
    exact ⟨_, rfl, inv_congr h rfl rfl rfl⟩
  | none =>
    cases hpr : st.prompt with
    | some p =>
      rw [pop_char_prompt hpo hpr]
      exact ⟨_, rfl, inv_congr h rfl rfl rfl⟩
    | none =>
      obtain ⟨hy, hx, hhy, hhx⟩ := h
      obtain ⟨line, hline⟩ := getQ_isSome_of_lt hy
      rw [lineLenAt_eq hline] at hx
      rw [lineLenAt_eq hline] at hhx
      by_cases hsel : st.highlight = st.cursor
      · by_cases hx0 : st.cursor.x = 0
        · by_cases hy0 : st.cursor.y = 0
          · rw [pop_char_origin hpo hpr hsel hx0 hy0]
            exact ⟨_, rfl, inv_congr ⟨hy, hx.trans (lineLenAt_eq hline).ge, hhy,
              hhx.trans (lineLenAt_eq hline).ge⟩ rfl rfl rfl⟩
          · exact pop_char_merge_inv hpo hpr hsel hline hx0 hy0 hy
        · have hxpos : 0 < st.cursor.x := Nat.pos_of_ne_zero hx0
          rw [pop_char_edit_mid hpo hpr hsel hline hxpos hx]
          have hlen2 : ((line.take st.cursor.x).dropLast ++ line.drop st.cursor.x).length
              = line.length - 1 := by
            rw [List.length_append, List.length_dropLast, len_take_of_le hx,
              List.length_drop]
            omega
          refine ⟨_, rfl, ?_, ?_, rfl, ?_⟩
          · simpa using hy
          all_goals
            rw [lineLenAt_eq_lineLenL]
            dsimp only
            rw [lineLenL_set_self _ hy, hlen2]
            omega
      · rw [pop_char_sel hpo hpr hsel hhy hline]
        have hmax : max st.highlight.x st.cursor.x ≤ line.length :=
          Nat.max_le.mpr ⟨hhx, hx⟩
        have hlen2 : (popN (line.take (max st.highlight.x st.cursor.x))
            (max st.highlight.x st.cursor.x - min st.highlight.x st.cursor.x)
            ++ line.drop (max st.highlight.x st.cursor.x)).length
            = min st.highlight.x st.cursor.x
              + (line.length - max st.highlight.x st.cursor.x) := by
          rw [List.length_append, len_popN, len_take_of_le hmax, List.length_drop]
          omega
        refine ⟨_, rfl, ?_, ?_, rfl, ?_⟩
        · simpa using hy
        all_goals
          rw [lineLenAt_eq_lineLenL]
          dsimp only
          rw [lineLenL_set_self _ hy, hlen2]
          omega

theorem pop_char_del_overlay {st : Fox}
    (h : ¬ (st.prompt.isNone && st.popup.isNone) = true) :
    pop_char_del st = some st := by
  simp only [pop_char_del]
  rw [if_neg h]

theorem pop_char_del_sel {st : Fox}
    (hov : (st.prompt.isNone && st.popup.isNone) = true)
    (hne : st.highlight ≠ st.cursor) :
    pop_char_del st = pop_char { st with dirty := true } := by
  simp only [pop_char_del]
  rw [if_pos hov, if_pos hne]

theorem pop_char_del_noop {st : Fox} {line : List Char}
    (hov : (st.prompt.isNone && st.popup.isNone) = true)
    (hsel : st.highlight = st.cursor)
    (hline : st.text.get? st.cursor.y = some line)
    (hend : line.length ≤ st.cursor.x) :
    pop_char_del st = some { st with dirty := true } := by
  simp only [pop_char_del]
  rw [if_pos hov, if_neg (not_not_intro hsel)]
  rw [hline]
  dsimp only
  rw [if_pos hend]

theorem pop_char_del_mid {st : Fox} {line : List Char}
    (hov : (st.prompt.isNone && st.popup.isNone) = true)
    (hsel : st.highlight = st.cursor)
    (hline : st.text.get? st.cursor.y = some line)
    (hlt : st.cursor.x < line.length) :
    pop_char_del st =
      some { st with
        text := st.text.set st.cursor.y
          (line.take st.cursor.x ++ (line.drop st.cursor.x).drop 1),
        dirty := true } := by
  simp only [pop_char_del]
  rw [if_pos hov, if_neg (not_not_intro hsel)]
  rw [hline]
  dsimp only
  rw [if_neg (Nat.not_le.mpr hlt)]

theorem pop_char_del_none {st : Fox}
    (hov : (st.prompt.isNone && st.popup.isNone) = true)
    (hsel : st.highlight = st.cursor)
    (hline : st.text.get? st.cursor.y = none) :
    pop_char_del st = some { st with dirty := true } := by
  simp only [pop_char_del]
  rw [if_pos hov, if_neg (not_not_intro hsel)]
  rw [hline]

theorem pop_char_del_inv {st : Fox} (h : FoxInv st) :
    ∃ st', pop_char_del st = some st' ∧ FoxInv st' := by
  by_cases hov : (st.prompt.isNone && st.popup.isNone) = true
  · have h0 := h
    obtain ⟨hy, hx, hhy, hhx⟩ := h
    obtain ⟨line, hline⟩ := getQ_isSome_of_lt hy
    rw [lineLenAt_eq hline] at hx
    by_cases hsel : st.highlight = st.cursor
    · by_cases hend : line.length ≤ st.cursor.x
      · rw [pop_char_del_noop hov hsel hline hend]
        exact ⟨_, rfl, inv_congr h0 rfl rfl rfl⟩
      · have hlt := Nat.not_le.mp hend
        rw [pop_char_del_mid hov hsel hline hlt]
        have hlen2 : (line.take st.cursor.x ++ (line.drop st.cursor.x).drop 1).length
            = line.length - 1 := by
          rw [List.length_append, len_take_of_le (Nat.le_of_lt hlt),
            List.length_drop, List.length_drop]
          omega
        refine ⟨_, rfl, ?_, ?_, hhy, ?_⟩
        · simpa using hy
        · rw [lineLenAt_eq_lineLenL]
          dsimp only
          rw [lineLenL_set_self _ hy, hlen2]
          omega
        · rw [lineLenAt_eq_lineLenL]
          dsimp only
          rw [lineLenL_set_self _ hy, hlen2]
          rw [hsel]
          omega
    · rw [pop_char_del_sel hov hsel]
      exact pop_char_inv (inv_congr h0 rfl rfl rfl)
  · rw [pop_char_del_overlay hov]
    exact ⟨_, rfl, h⟩

theorem enter_none {st : Fox} (h : st.text.get? st.cursor.y = none) :
    enter st = st := by
  simp only [enter]
  rw [h]

theorem enter_at_end {st : Fox} {line : List Char}
    (hline : st.text.get? st.cursor.y = some line)
    (hend : line.length ≤ st.cursor.x) :
    enter st = cursor_start_of_line (cursor_vertical
      { st with text := insertIdxL (st.cursor.y + 1) [] st.text } 1) := by
  simp only [enter]
  rw [hline]
  dsimp only
  rw [if_pos hend]

theorem enter_split {st : Fox} {line : List Char}
    (hline : st.text.get? st.cursor.y = some line)
    (hlt : st.cursor.x < line.length) :
    enter st = cursor_start_of_line (cursor_vertical
      { st with text := insertIdxL (st.cursor.y + 1) (line.drop st.cursor.x)
                          (st.text.set st.cursor.y (line.take st.cursor.x)) } 1) := by
  simp only [enter]
  rw [hline]
  dsimp only
  rw [if_neg (Nat.not_le.mpr hlt)]

theorem enter_inv {st : Fox} (h : FoxInv st) : FoxInv (enter st) := by
  obtain ⟨hy, hx, hhy, hhx⟩ := h
  obtain ⟨line, hline⟩ := getQ_isSome_of_lt hy
  by_cases hend : line.length ≤ st.cursor.x
  · rw [enter_at_end hline hend]
    refine cursor_start_of_line_inv (@cursor_vertical_inv_of_some _ 1 ([] : List Char) ?_)
    rw [vRow_one]
    exact getQ_insertIdxL_self ([] : List Char) hy
  · rw [enter_split hline (Nat.not_le.mp hend)]
    refine cursor_start_of_line_inv
      (@cursor_vertical_inv_of_some _ 1 (line.drop st.cursor.x) ?_)
    rw [vRow_one]
    exact getQ_insertIdxL_self (line.drop st.cursor.x)
      (by rw [List.length_set]; exact hy)

theorem swap_down_noop {st : Fox}
    (h : st.text.get? (st.cursor.y + 1) = none) :
    swap_down st = some st := by
  simp only [swap_down]
  rw [h]

theorem swap_down_eq {st : Fox} {line line_down : List Char}
    (hld : st.text.get? (st.cursor.y + 1) = some line_down)
    (hl : st.text.get? st.cursor.y = some line) :
    swap_down st = some { cursor_vertical
      { st with text := (st.text.set st.cursor.y line_down).set (st.cursor.y + 1) line } 1
      with dirty := true } := by
  simp only [swap_down]
  rw [hld]
  dsimp only
  rw [hl]

theorem swap_down_inv {st : Fox} (h : FoxInv st) :
    ∃ st', swap_down st = some st' ∧ FoxInv st' := by
  cases hld : st.text.get? (st.cursor.y + 1) with
  | none =>
    rw [swap_down_noop hld]
    exact ⟨_, rfl, h⟩
  | some line_down =>
    obtain ⟨line, hl⟩ := getQ_isSome_of_lt h.1
    rw [swap_down_eq hld hl]
    refine ⟨_, rfl, inv_congr (@cursor_vertical_inv_of_some _ 1 line ?_) rfl rfl rfl⟩
    rw [vRow_one]
    exact getQ_set_self line (by rw [List.length_set]; exact getQ_some_lt hld)

theorem swap_up_inv {st : Fox} (h : FoxInv st) :
    ∃ st', swap_up st = some st' ∧ FoxInv st' := by
  have h1 : FoxInv (cursor_vertical st (-1)) :=
    cursor_vertical_inv_of_valid (-1) h.1 h.2.1
  obtain ⟨st2, hst2, h2⟩ := swap_down_inv h1
  refine ⟨cursor_vertical st2 (-1), ?_, cursor_vertical_inv_of_valid (-1) h2.1 h2.2.1⟩
  simp only [swap_up]
  rw [hst2]
  rfl

/-- Whether the scan loop of `find_from` would find the pattern on row `i`
(with the cursor-row truncation applied). -/
def rowHasMatch (st : Fox) (s : List Char) (i : Nat) : Bool :=
  match st.text.get? i with
  | none => false
  | some line =>
    if i = st.cursor.y then (strFind s (line.drop st.cursor.x)).isSome
    else (strFind s line).isSome

theorem find_success_text (st : Fox) (s : List Char) (i x : Nat) :
    (find_success st s i x).text = st.text := by
  simp only [find_success]
  split
  · rfl
  · split
    · split
      · rfl
      · rfl
    · rfl

theorem find_success_cursor (st : Fox) (s : List Char) (i x : Nat) :
    (find_success st s i x).cursor = ⟨x + s.length, i⟩ := by
  simp only [find_success]
  split
  · rfl
  · split
    · split
      · rfl
      · rfl
    · rfl

theorem find_success_highlight (st : Fox) (s : List Char) (i x : Nat) :
    (find_success st s i x).highlight = ⟨x, i⟩ := by
  simp only [find_success]
  split
  · rfl
  · split
    · split
      · rfl
      · rfl
    · rfl

theorem find_success_prompt (st : Fox) (s : List Char) (i x : Nat) :
    (find_success st s i x).prompt = st.prompt := by
  simp only [find_success]
  split
  · rfl
  · split
    · split
      · rfl
      · rfl
    · rfl

theorem find_success_popup (st : Fox) (s : List Char) (i x : Nat) :
    (find_success st s i x).popup = st.popup := by
  simp only [find_success]
  split
  · rfl
  · split
    · split
      · rfl
      · rfl
    · rfl

theorem find_success_inv {st : Fox} {s : List Char} {i x : Nat} {line : List Char}
    (hget : st.text.get? i = some line) (hb : x + s.length ≤ line.length) :
    FoxInv (find_success st s i x) := by
  have hc := find_success_cursor st s i x
  have hh := find_success_highlight st s i x
  have ht := find_success_text st s i x
  refine ⟨?_, ?_, ?_, ?_⟩
  · rw [hc, ht]
    exact getQ_some_lt hget
  · rw [hc, lineLenAt_eq_lineLenL, ht]
    show x + s.length ≤ lineLenL st.text i
    rw [show lineLenL st.text i = line.length from by
      simp only [lineLenL]
      rw [hget]]
    exact hb
  · rw [hh, hc]
  · rw [hh, hc, lineLenAt_eq_lineLenL, ht]
    show x ≤ lineLenL st.text i
    rw [show lineLenL st.text i = line.length from by
      simp only [lineLenL]
      rw [hget]]
    omega

theorem find_from_go_inv {st : Fox} (s : List Char) (h : FoxInv st) :
    ∀ fuel i, ∃ r, find_from_go st s i fuel = some r ∧
      (r.2 = true → FoxInv r.1) ∧ (r.2 = false → r.1 = st) := by
  intro fuel
  induction fuel with
  | zero =>
    intro i
    exact ⟨(st, false), rfl, by simp, fun _ => rfl⟩
  | succ n ih =>
    intro i
    simp only [find_from_go]
    cases hget : st.text.get? i with
    | none => exact ih (i + 1)
    | some line =>
      dsimp only
      by_cases hiy : i = st.cursor.y
      · rw [if_pos hiy]
        have hxle : st.cursor.x ≤ line.length := by
          have hx := h.2.1
          rw [lineLenAt_eq (show st.text.get? st.cursor.y = some line from hiy ▸ hget)] at hx
          exact hx
        rw [if_neg (Nat.not_lt.mpr hxle)]
        cases hf : strFind s (line.drop st.cursor.x) with
        | some x =>
          refine ⟨_, rfl, fun _ => ?_, by simp⟩
          refine find_success_inv hget ?_
          have := strFind_le hf
          rw [List.length_drop] at this
          omega
        | none => exact ih (i + 1)
      · rw [if_neg hiy]
        cases hf : strFind s line with
        | some x =>
          exact ⟨_, rfl, fun _ => find_success_inv hget (strFind_le hf), by simp⟩
        | none => exact ih (i + 1)

theorem find_from_go_false {st : Fox} {s : List Char} :
    ∀ fuel i st1, find_from_go st s i fuel = some (st1, false) →
      st1 = st ∧ ∀ j, i ≤ j → j < i + fuel → rowHasMatch st s j = false := by
  intro fuel
  induction fuel with
  | zero =>
    intro i st1 heq
    simp only [find_from_go] at heq
    injection heq with heq
    injection heq with h1 _
    exact ⟨h1.symm, fun j hj1 hj2 => absurd hj2 (by omega)⟩
  | succ n ih =>
    intro i st1 heq
    simp only [find_from_go] at heq
    have hrange : ∀ j, i ≤ j → j < i + (n + 1) → j = i ∨ (i + 1 ≤ j ∧ j < i + 1 + n) := by
      intro j hj1 hj2
      omega
    cases hget : st.text.get? i with
    | none =>
      rw [hget] at heq
      obtain ⟨h1, h2⟩ := ih (i + 1) st1 heq
      refine ⟨h1, fun j hj1 hj2 => ?_⟩
      rcases hrange j hj1 hj2 with hj | ⟨hj3, hj4⟩
      · subst hj
        simp only [rowHasMatch]
        rw [hget]
      · exact h2 j hj3 hj4
    | some line =>
      rw [hget] at heq
      dsimp only at heq
      by_cases hiy : i = st.cursor.y
      · rw [if_pos hiy] at heq
        by_cases hov : line.length < st.cursor.x
        · rw [if_pos hov] at heq
          exact absurd heq (by simp)
        · rw [if_neg hov] at heq
          cases hf : strFind s (line.drop st.cursor.x) with
          | some x =>
            rw [hf] at heq
            injection heq with heq
            injection heq with _ hbool
            exact absurd hbool (by simp)
          | none =>
            rw [hf] at heq
            obtain ⟨h1, h2⟩ := ih (i + 1) st1 heq
            refine ⟨h1, fun j hj1 hj2 => ?_⟩
            rcases hrange j hj1 hj2 with hj | ⟨hj3, hj4⟩
            · subst hj
              simp only [rowHasMatch]
              rw [hget]
              dsimp only
              rw [if_pos hiy, hf]
              rfl
            · exact h2 j hj3 hj4
      · rw [if_neg hiy] at heq
        cases hf : strFind s line with
        | some x =>
          rw [hf] at heq
          injection heq with heq
          injection heq with _ hbool
          exact absurd hbool (by simp)
        | none =>
          rw [hf] at heq
          obtain ⟨h1, h2⟩ := ih (i + 1) st1 heq
          refine ⟨h1, fun j hj1 hj2 => ?_⟩
          rcases hrange j hj1 hj2 with hj | ⟨hj3, hj4⟩
          · subst hj
            simp only [rowHasMatch]
            rw [hget]
            dsimp only
            rw [if_neg hiy, hf]
            rfl
          · exact h2 j hj3 hj4

theorem find_from_go_true {st : Fox} {s : List Char} :
    ∀ fuel i st1, find_from_go st s i fuel = some (st1, true) →
      ∃ j x line, i ≤ j ∧ st.text.get? j = some line ∧
        strFind s (if j = st.cursor.y then line.drop st.cursor.x else line) = some x ∧
        st1 = find_success st s j x := by
  intro fuel
  induction fuel with
  | zero =>
    intro i st1 heq
    simp only [find_from_go] at heq
    injection heq with heq
    injection heq with _ hbool
    exact absurd hbool (by simp)
  | succ n ih =>
    intro i st1 heq
    simp only [find_from_go] at heq
    cases hget : st.text.get? i with
    | none =>
      rw [hget] at heq
      obtain ⟨j, x, line, hj, hg, hfind, hst⟩ := ih (i + 1) st1 heq
      exact ⟨j, x, line, by omega, hg, hfind, hst⟩
    | some line =>
      rw [hget] at heq
      dsimp only at heq
      by_cases hiy : i = st.cursor.y
      · rw [if_pos hiy] at heq
        by_cases hov : line.length < st.cursor.x
        · rw [if_pos hov] at heq
          exact absurd heq (by simp)
        · rw [if_neg hov] at heq
          cases hf : strFind s (line.drop st.cursor.x) with
          | some x =>
            rw [hf] at heq
            injection heq with heq
            injection heq with hst _
            refine ⟨i, x, line, Nat.le_refl i, hget, ?_, hst.symm⟩
            rw [if_pos hiy]
            exact hf
          | none =>
            rw [hf] at heq
            obtain ⟨j, x, line', hj, hg, hfind, hst⟩ := ih (i + 1) st1 heq
            exact ⟨j, x, line', by omega, hg, hfind, hst⟩
      · rw [if_neg hiy] at heq
        cases hf : strFind s line with
        | some x =>
          rw [hf] at heq
          injection heq with heq
          injection heq with hst _
          refine ⟨i, x, line, Nat.le_refl i, hget, ?_, hst.symm⟩
          rw [if_neg hiy]
          exact hf
        | none =>
          rw [hf] at heq
          obtain ⟨j, x, line', hj, hg, hfind, hst⟩ := ih (i + 1) st1 heq
          exact ⟨j, x, line', by omega, hg, hfind, hst⟩

theorem find_from_inv {st : Fox} (s : List Char) (y : Nat) (h : FoxInv st) :
    ∃ r, find_from st s y = some r ∧
      (r.2 = true → FoxInv r.1) ∧ (r.2 = false → r.1 = st) :=
  find_from_go_inv s h _ y

theorem find_next_inv {st : Fox} (s : List Char) (h : FoxInv st) :
    ∃ r, find_next st s = some r ∧
      (r.2 = true → FoxInv r.1) ∧ (r.2 = false → r.1 = st) := by
  obtain ⟨⟨st1, b⟩, h1, htrue, hfalse⟩ := find_from_inv s st.cursor.y h
  simp only [find_next]
  rw [h1]
  cases b with
  | true =>
    exact ⟨(st1, true), rfl, fun _ => htrue rfl, by simp⟩
  | false =>
    have hst1 : st1 = st := hfalse rfl
    subst hst1
    dsimp only
    exact find_from_inv s 0 h

theorem close_overlay_inv {st : Fox} (ip : Bool) (h : FoxInv st) :
    FoxInv (close_overlay st ip) := by
  simp only [close_overlay]
  split <;> exact inv_congr h rfl rfl rfl

theorem handle_prompt_inv {st : Fox} (p : Prompt) (ip : Bool) (h : FoxInv st) :
    ∃ r, handle_prompt st p ip = some r ∧ FoxInv r.2 := by
  simp only [handle_prompt]
  cases hk : p.prompt with
  | UnsavedQuit =>
    by_cases hc : p.buf = ['y'] ∨ p.buf = ['y','e'] ∨ p.buf = ['y','e','s']
    · rw [if_pos hc]
      exact ⟨_, rfl, h⟩
    · rw [if_neg hc]
      exact ⟨_, rfl, close_overlay_inv ip h⟩
  | Find =>
    obtain ⟨⟨st1, b⟩, h1, htrue, hfalse⟩ := find_next_inv p.buf h
    rw [h1]
    dsimp only
    cases b with
    | true =>
      rw [if_pos rfl]
      exact ⟨_, rfl, htrue rfl⟩
    | false =>
      rw [if_neg Bool.false_ne_true]
      have hst1 : st1 = st := hfalse rfl
      subst hst1
      exact ⟨_, rfl, close_overlay_inv ip (inv_congr h rfl rfl rfl)⟩
  | Help =>
    exact ⟨_, rfl, close_overlay_inv ip h⟩
  | GoToLine =>
    cases hp : parse_u16 p.buf with
    | some num =>
      exact ⟨_, rfl, close_overlay_inv ip (go_to_line_inv _ h)⟩
    | none =>
      exact ⟨_, rfl, close_overlay_inv ip h⟩

theorem enter_key_inv {st : Fox} (h : FoxInv st) :
    ∃ r, enter_key st = some r ∧ FoxInv r.2 := by
  simp only [enter_key]
  cases hpo : st.popup with
  | some p => exact handle_prompt_inv p true h
  | none =>
    cases hpr : st.prompt with
    | some p => exact handle_prompt_inv p false h
    | none => exact ⟨_, rfl, inv_congr (enter_inv h) rfl rfl rfl⟩

theorem esc_key_inv {st : Fox} (h : FoxInv st) : FoxInv (esc_key st) := by
  simp only [esc_key]
  split
  · exact inv_congr h rfl rfl rfl
  · split
    · exact inv_congr h rfl rfl rfl
    · exact h

theorem step_no_crash_and_inv {st : Fox} (op : Op) (h : FoxInv st) :
    step op st ≠ StepRes.crash ∧
      ∀ st', step op st = StepRes.next st' → FoxInv st' := by
  cases op with
  | ctrlQ =>
    simp only [step]
    split
    · exact ⟨fun hc => StepRes.noConfusion hc, fun st' h' => by
        cases h'
        exact inv_congr h rfl rfl rfl⟩
    · exact ⟨fun hc => StepRes.noConfusion hc, fun st' h' => by cases h'⟩
  | ctrlS =>
    exact ⟨fun hc => StepRes.noConfusion hc, fun st' h' => by
      cases h'
      exact inv_congr h rfl rfl rfl⟩
  | ctrlF =>
    exact ⟨fun hc => StepRes.noConfusion hc, fun st' h' => by
      cases h'
      exact inv_congr h rfl rfl rfl⟩
  | ctrlH =>
    exact ⟨fun hc => StepRes.noConfusion hc, fun st' h' => by
      cases h'
      exact inv_congr h rfl rfl rfl⟩
  | ctrlK =>
    exact ⟨fun hc => StepRes.noConfusion hc, fun st' h' => by
      cases h'
      exact inv_congr h rfl rfl rfl⟩
  | ctrlDown =>
    obtain ⟨st2, h2, hinv⟩ := swap_down_inv h
    simp only [step, liftO]
    rw [h2]
    exact ⟨fun hc => StepRes.noConfusion hc, fun st' h' => by
      cases h'
      exact hinv⟩
  | ctrlUp =>
    obtain ⟨st2, h2, hinv⟩ := swap_up_inv h
    simp only [step, liftO]
    rw [h2]
    exact ⟨fun hc => StepRes.noConfusion hc, fun st' h' => by
      cases h'
      exact hinv⟩
  | key c =>
    obtain ⟨st2, h2, hinv⟩ := push_char_inv c h
    simp only [step, liftO]
    rw [h2]
    exact ⟨fun hc => StepRes.noConfusion hc, fun st' h' => by
      cases h'
      exact hinv⟩
  | backspace =>
    obtain ⟨st2, h2, hinv⟩ := pop_char_inv h
    simp only [step, liftO]
    rw [h2]
    exact ⟨fun hc => StepRes.noConfusion hc, fun st' h' => by
      cases h'
      exact hinv⟩
  | del =>
    obtain ⟨st2, h2, hinv⟩ := pop_char_del_inv h
    simp only [step, liftO]
    rw [h2]
    exact ⟨fun hc => StepRes.noConfusion hc, fun st' h' => by
      cases h'
      exact hinv⟩
  | enterKey =>
    obtain ⟨⟨b, st2⟩, h2, hinv⟩ := enter_key_inv h
    simp only [step]
    rw [h2]
    cases b with
    | false =>
      exact ⟨fun hc => StepRes.noConfusion hc, fun st' h' => by
        cases h'
        exact hinv⟩
    | true =>
      exact ⟨fun hc => StepRes.noConfusion hc, fun st' h' => by cases h'⟩
  | escKey =>
    exact ⟨fun hc => StepRes.noConfusion hc, fun st' h' => by
      cases h'
      exact esc_key_inv h⟩
  | up =>
    exact ⟨fun hc => StepRes.noConfusion hc, fun st' h' => by
      cases h'
      exact cursor_vertical_inv_of_valid (-1) h.1 h.2.1⟩
  | down =>
    exact ⟨fun hc => StepRes.noConfusion hc, fun st' h' => by
      cases h'
      exact cursor_vertical_inv_of_valid 1 h.1 h.2.1⟩
  | right =>
    obtain ⟨st2, h2, hinv⟩ := cursor_horizontal_inv 1 h
    simp only [step, liftO]
    rw [h2]
    exact ⟨fun hc => StepRes.noConfusion hc, fun st' h' => by
      cases h'
      exact hinv⟩
  | left =>
    obtain ⟨st2, h2, hinv⟩ := cursor_horizontal_inv (-1) h
    simp only [step, liftO]
    rw [h2]
    exact ⟨fun hc => StepRes.noConfusion hc, fun st' h' => by
      cases h'
      exact hinv⟩
  | shiftRight =>
    obtain ⟨st2, h2, hinv⟩ := highlight_horizontal_inv 1 h
    simp only [step, liftO]
    rw [h2]
    exact ⟨fun hc => StepRes.noConfusion hc, fun st' h' => by
      cases h'
      exact hinv⟩
  | shiftLeft =>
    obtain ⟨st2, h2, hinv⟩ := highlight_horizontal_inv (-1) h
    simp only [step, liftO]
    rw [h2]
    exact ⟨fun hc => StepRes.noConfusion hc, fun st' h' => by
      cases h'
      exact hinv⟩
  | pasteLine =>
    exact ⟨fun hc => StepRes.noConfusion hc, fun st' h' => by
      cases h'
      exact cursor_start_of_line_inv (enter_inv h)⟩

theorem loadInit_inv {file : Option (List (List Char))} (hh : Nat)
    (hne : file ≠ some []) : FoxInv (loadInit file hh) := by
  cases file with
  | none => exact ⟨Nat.one_pos, Nat.zero_le _, rfl, Nat.zero_le _⟩
  | some ls =>
    cases ls with
    | nil => exact absurd rfl hne
    | cons a t => exact ⟨Nat.succ_pos _, Nat.zero_le _, rfl, Nat.zero_le _⟩

theorem reachable_inv {file : Option (List (List Char))} {hh : Nat}
    (hne : file ≠ some []) {st : Fox}
    (hr : ReachableFrom (loadInit file hh) st) : FoxInv st := by
  induction hr with
  | refl => exact loadInit_inv hh hne
  | tail _ hstep ih => exact (step_no_crash_and_inv _ ih).2 _ hstep

/-! ### Concrete states used by the claim theorems -/

/-- Convenience builder for concrete test states: text, cursor column/row,
highlight column/row; no overlay, clean, terminal height 10. -/
def mkFox (t : List (List Char)) (cx cy hx hy : Nat) : Fox :=
  { text := t, cursor := ⟨cx, cy⟩, highlight := ⟨hx, hy⟩, scroll := 0,
    dirty := false, prompt := none, popup := none, status := [], height := 10 }

/-! ### Claim C2 -/

/-- A state whose selection spans two rows: anchor at (0,0), cursor at
column 1 of row 1. -/
def c2state : Fox := mkFox [['a','b'], ['c','d']] 1 1 0 0

/-- C2: the claim says `deleteSelection` handles multi-row selections by
removing the enclosed lines and merging the first/last remainders.  The
code instead hits the `todo!()` placeholder in `pop_char`'s multi-line
selection arm and panics (modelled as `none`): multi-row selections are
faulted, not handled. -/
theorem c2_multirow_selection_panics : pop_char c2state = none := by decide

/-! ### Claim C4 -/

/-- Document `["ab","cd"]`, empty selection, cursor at the end of the first
line (column 2, row 0). -/
def c4state : Fox := mkFox [['a','b'], ['c','d']] 2 0 2 0

/-- C4: the claim says delete-forward at the end of a non-last line merges
the next line into the current one (`["abcd"]`).  The code's `pop_char_del`
returns early whenever the cursor column is at or past the end of the line,
so the document is left unchanged (only the dirty flag is set): the merge
is not implemented. -/
theorem c4_delete_forward_no_merge :
    pop_char_del c4state = some { c4state with dirty := true } := by decide

/-! ### Claim C5 -/

/-- The fresh editor state on a new (nonexistent) file. -/
def c5state0 : Fox := loadInit none 10

/-- After ctrl-h: the help popup is open. -/
def c5state1 : Fox := open_popup c5state0 PromptType.Help

/-- After ctrl-h then ctrl-f: the find prompt has been installed while the
help popup is still active. -/
def c5state2 : Fox := open_prompt c5state1 PromptType.Find

/-- C5: the claim says at most one overlay is ever active and a second open
request is rejected.  The code keeps `prompt` and `popup` as two
independent options and the main loop's ctrl-f handler does not check for
an active popup, so pressing ctrl-h then ctrl-f reaches a state with both
overlays active. -/
theorem c5_two_overlays_active :
    step Op.ctrlH c5state0 = StepRes.next c5state1 ∧
    step Op.ctrlF c5state1 = StepRes.next c5state2 ∧
    c5state2.popup.isSome = true ∧ c5state2.prompt.isSome = true := by decide

/-! ### Claim C10 -/

/-- C10: with no overlay and an empty selection, Backspace at (0,0) and
Delete at the end of a line leave the document and cursor unchanged but
still set the dirty flag. -/
theorem c10_boundary_deletes_set_dirty (st : Fox)
    (hpo : st.popup = none) (hpr : st.prompt = none)
    (hsel : st.highlight = st.cursor) :
    (st.cursor = ⟨0, 0⟩ → pop_char st = some { st with dirty := true }) ∧
    (∀ line, st.text.get? st.cursor.y = some line → line.length ≤ st.cursor.x →
      pop_char_del st = some { st with dirty := true }) := by
  constructor
  · intro hc
    exact pop_char_origin hpo hpr hsel (congrArg Pos.x hc) (congrArg Pos.y hc)
  · intro line hline hend
    exact pop_char_del_noop (by rw [hpr, hpo]; rfl) hsel hline hend

/-- Witness for C10: a one-line buffer "a".  Backspace at (0,0) and Delete
at (1,0) both keep text and cursor and set dirty. -/
theorem c10_witness :
    pop_char (mkFox [['a']] 0 0 0 0) =
      some { mkFox [['a']] 0 0 0 0 with dirty := true } ∧
    pop_char_del (mkFox [['a']] 1 0 1 0) =
      some { mkFox [['a']] 1 0 1 0 with dirty := true } :=
  ⟨(c10_boundary_deletes_set_dirty (mkFox [['a']] 0 0 0 0) rfl rfl rfl).1 rfl,
   (c10_boundary_deletes_set_dirty (mkFox [['a']] 1 0 1 0) rfl rfl rfl).2
     ['a'] rfl (by decide)⟩

/-! ### Claim C3 -/

/-- An unsaved-quit prompt whose input buffer is "n". -/
def c3state : Fox :=
  { mkFox [['a']] 0 0 0 0 with
    dirty := true, prompt := some ⟨PromptType.UnsavedQuit, ['n']⟩ }

/-- C3 counterexample: the claim says that on any input other than
"y"/"ye"/"yes" the overlay stays open.  With input "n", Enter closes the
overlay (the prompt field becomes `none`) and the session continues. -/
theorem c3_counterexample :
    enter_key c3state = some (false, { c3state with prompt := none }) ∧
    ¬ (enter_key c3state).map (fun r => r.2.prompt.isSome) = some true := by decide

/-- C3 amended: when Enter is pressed on the confirm-unsaved-quit prompt,
input "y"/"ye"/"yes" ends the session; every other input closes the
overlay (rather than keeping it open) and the session continues, with the
rest of the state unchanged. -/
theorem c3_amended_unsaved_quit (st : Fox) (p : Prompt)
    (hpo : st.popup = none) (hpr : st.prompt = some p)
    (hk : p.prompt = PromptType.UnsavedQuit) :
    enter_key st =
      if p.buf = ['y'] ∨ p.buf = ['y','e'] ∨ p.buf = ['y','e','s']
      then some (true, st)
      else some (false, { st with prompt := none }) := by
  simp only [enter_key, hpo, hpr, handle_prompt, hk]
  by_cases hc : p.buf = ['y'] ∨ p.buf = ['y','e'] ∨ p.buf = ['y','e','s']
  · rw [if_pos hc, if_pos hc]
  · rw [if_neg hc, if_neg hc]
    simp only [close_overlay, hpo]
    rw [if_neg Bool.false_ne_true]

/-- Witness for C3: with the buffer "yes" the session ends. -/
theorem c3_witness :
    enter_key { mkFox [['a']] 0 0 0 0 with
      dirty := true, prompt := some ⟨PromptType.UnsavedQuit, ['y','e','s']⟩ } =
    some (true, { mkFox [['a']] 0 0 0 0 with
      dirty := true, prompt := some ⟨PromptType.UnsavedQuit, ['y','e','s']⟩ }) :=
  (c3_amended_unsaved_quit _ ⟨PromptType.UnsavedQuit, ['y','e','s']⟩ rfl rfl rfl).trans
    (by decide)

/-! ### Claim C8 -/

/-- C8: with an empty selection (and the cursor column within the line, as
every reachable state satisfies), inserting a character and immediately
backspacing restores both the document content and the cursor position.
With an overlay active both keys go to the overlay buffer and the document
and cursor are untouched. -/
theorem c8_insert_then_delete (st : Fox) (c : Char)
    (hsel : st.highlight = st.cursor)
    (hx : st.cursor.x ≤ lineLenAt st st.cursor.y) :
    ((push_char st c).bind pop_char).map (fun s2 => (s2.text, s2.cursor)) =
      some (st.text, st.cursor) := by
  cases hpo : st.popup with
  | some p =>
    rw [push_char_popup c hpo]
    dsimp only [Option.bind]
    rw [pop_char_popup (show ({ st with
      popup := some { p with buf := p.buf ++ [c] } } : Fox).popup
      = some { p with buf := p.buf ++ [c] } from rfl)]
    rfl
  | none =>
    cases hpr : st.prompt with
    | some p =>
      rw [push_char_prompt c hpo hpr]
      dsimp only [Option.bind]
      rw [pop_char_prompt (show ({ st with
        prompt := some { p with buf := p.buf ++ [c] } } : Fox).popup = none from hpo)
        (show ({ st with prompt := some { p with buf := p.buf ++ [c] } } : Fox).prompt
          = some { p with buf := p.buf ++ [c] } from rfl)]
      rfl
    | none =>
      cases hline : st.text.get? st.cursor.y with
      | none =>
        simp only [push_char, hpo, hpr]
        rw [hline]
        dsimp only [Option.bind]
        rw [@pop_char_no_line
          { text := st.text, cursor := st.cursor, highlight := st.highlight,
            scroll := st.scroll, dirty := true, prompt := none, popup := none,
            status := st.status, height := st.height }
          rfl rfl hsel hline]
        rfl
      | some line =>
        rw [lineLenAt_eq hline] at hx
        have hy := getQ_some_lt hline
        have hlen2 : (line.take st.cursor.x ++ c :: line.drop st.cursor.x).length
            = line.length + 1 := by
          rw [List.length_append, len_take_of_le hx, List.length_cons, List.length_drop]
          omega
        rw [push_char_edit c hpo hpr hsel hline hx]
        dsimp only [Option.bind]
        rw [@pop_char_edit_mid
          { st with
            text := st.text.set st.cursor.y
              (line.take st.cursor.x ++ c :: line.drop st.cursor.x),
            cursor := ⟨st.cursor.x + 1, st.cursor.y⟩,
            highlight := ⟨st.cursor.x + 1, st.cursor.y⟩,
            dirty := true }
          (line.take st.cursor.x ++ c :: line.drop st.cursor.x)
          hpo hpr rfl (getQ_set_self _ hy) (Nat.succ_pos _)
          (by
            show st.cursor.x + 1 ≤ (line.take st.cursor.x ++ c :: line.drop st.cursor.x).length
            rw [hlen2]
            omega)]
        dsimp only [Option.map]
        have ht1 : (line.take st.cursor.x ++ c :: line.drop st.cursor.x).take (st.cursor.x + 1)
            = line.take st.cursor.x ++ [c] := by
          have h0 := take_len_succ_app (line.take st.cursor.x) (line.drop st.cursor.x) c
          rw [len_take_of_le hx] at h0
          exact h0
        have ht2 : (line.take st.cursor.x ++ c :: line.drop st.cursor.x).drop (st.cursor.x + 1)
            = line.drop st.cursor.x := by
          have h0 := drop_len_succ_app (line.take st.cursor.x) (line.drop st.cursor.x) c
          rw [len_take_of_le hx] at h0
          exact h0
        rw [ht1, ht2, dropLast_app_single, List.take_append_drop]
        rw [List.set_set, set_getQ_self hline, Nat.add_sub_cancel]

/-- Witness for C8: typing 'z' into "ab" at column 1 and backspacing
restores the line and the cursor. -/
theorem c8_witness :
    ((push_char (mkFox [['a','b']] 1 0 1 0) 'z').bind pop_char).map
      (fun s2 => (s2.text, s2.cursor)) =
    some ((mkFox [['a','b']] 1 0 1 0).text, (mkFox [['a','b']] 1 0 1 0).cursor) :=
  c8_insert_then_delete (mkFox [['a','b']] 1 0 1 0) 'z' rfl (by decide)

/-! ### Claim C6 -/

theorem lineAt_eq {st : Fox} {y : Nat} {line : List Char}
    (h : st.text.get? y = some line) : lineAt st y = line := by
  simp only [lineAt]
  rw [h]

/-- Document `["aab"]` with the cursor at column 1 of row 0. -/
def c6state : Fox := mkFox [['a','a','b']] 1 0 1 0

/-- C6 counterexample: searching "b" from (1,0) in "aab" matches at
absolute column 2 (so the claim requires anchor column 2 and cursor column
3), but the code stores the index found in the truncated suffix "ab":
anchor column 1 and cursor column 2. -/
theorem c6_counterexample :
    (find_next c6state ['b']).map
      (fun p => (p.1.highlight.x, p.1.cursor.x, p.1.cursor.y, p.2)) =
      some (1, 2, 0, true) ∧
    ¬ (find_next c6state ['b']).map (fun p => (p.1.highlight.x, p.1.cursor.x)) =
      some (2, 3) := by decide

/-- C6 amended: when `find_next` finds a match it sets both rows to the
matching line and Cursor.column = Anchor.column + pattern length, and the
anchor column is the index of a genuine occurrence of the pattern measured
in the scanned line: the full line for a match on a row other than the
start row, but the suffix starting at the start column (columns shifted
left by the start column) for a match on the start row itself. -/
theorem c6_amended_selection_brackets_match (st st' : Fox) (s : List Char)
    (h : find_next st s = some (st', true)) :
    st'.highlight.y = st'.cursor.y ∧
    st'.cursor.x = st'.highlight.x + s.length ∧
    st'.cursor.y < st.text.length ∧
    s.isPrefixOf ((if st'.cursor.y = st.cursor.y
        then (lineAt st st'.cursor.y).drop st.cursor.x
        else lineAt st st'.cursor.y).drop st'.highlight.x) = true := by
  simp only [find_next] at h
  cases h1 : find_from st s st.cursor.y with
  | none =>
    rw [h1] at h
    exact absurd h (by simp)
  | some r =>
    rw [h1] at h
    obtain ⟨st1, b⟩ := r
    have key : ∃ j x line, st.text.get? j = some line ∧
        strFind s (if j = st.cursor.y then line.drop st.cursor.x else line) = some x ∧
        st' = find_success st s j x := by
      cases b with
      | true =>
        dsimp only at h
        injection h with h
        injection h with hst _
        subst hst
        obtain ⟨j, x, line, _, hget, hfind, hsucc⟩ := find_from_go_true _ _ _ h1
        exact ⟨j, x, line, hget, hfind, hsucc⟩
      | false =>
        dsimp only at h
        have hst1 : st1 = st := (find_from_go_false _ _ _ h1).1
        subst hst1
        obtain ⟨j, x, line, _, hget, hfind, hsucc⟩ := find_from_go_true _ _ _ h
        exact ⟨j, x, line, hget, hfind, hsucc⟩
    obtain ⟨j, x, line, hget, hfind, hsucc⟩ := key
    subst hsucc
    have hc := find_success_cursor st s j x
    have hh := find_success_highlight st s j x
    refine ⟨?_, ?_, ?_, ?_⟩
    · rw [hc, hh]
    · rw [hc, hh]
    · rw [hc]
      exact getQ_some_lt hget
    · rw [hc, hh]
      dsimp only
      rw [lineAt_eq hget]
      exact strFind_isPrefixOf hfind

/-- The state after the witness search: "b" found on row 1 at column 1. -/
def c6wstate : Fox := mkFox [['q'], ['a','b']] 0 0 0 0

/-- The result state of the witness search. -/
def c6wres : Fox := find_success c6wstate ['b'] 1 1

/-- Witness for C6 at a match on a non-start row (absolute columns). -/
theorem c6_witness :
    c6wres.highlight.y = c6wres.cursor.y ∧
    c6wres.cursor.x = c6wres.highlight.x + (['b'] : List Char).length ∧
    c6wres.cursor.y < c6wstate.text.length ∧
    (['b'] : List Char).isPrefixOf ((if c6wres.cursor.y = c6wstate.cursor.y
        then (lineAt c6wstate c6wres.cursor.y).drop c6wstate.cursor.x
        else lineAt c6wstate c6wres.cursor.y).drop c6wres.highlight.x) = true :=
  c6_amended_selection_brackets_match c6wstate c6wres ['b'] (by decide)

/-! ### Claim C7 -/

/-- The search pattern "def". -/
def dl7 : List Char := ['d','e','f']

/-- Document `["abc","def","def"]`, cursor at the end of the last "def". -/
def ex7 : Fox := mkFox [['a','b','c'], dl7, dl7] 3 2 3 2

/-- The result of the witness search: the wrapped match on row 1. -/
def ex7res : Fox := find_success ex7 dl7 1 0

/-- Document `["def"]` with the cursor at the end: the only occurrence lies
before the start column, and the first scanned line is restricted to the
suffix after it even on the wrap pass. -/
def ex7b : Fox := mkFox [dl7] 3 0 3 0

/-- C7: wraparound.  If the scan from the cursor row fails, `find_next`
rescans from row 0, and any match it then reports lies strictly before the
original start row; in `["abc","def","def"]` with the cursor at the end of
the last "def", `find_next "def"` wraps and lands on row 1, not row 2, and
in `["def"]` with the cursor at the end the search fails because the first
scanned line is restricted to the suffix strictly after the start column. -/
theorem c7_wraparound (st st1 : Fox) (s : List Char)
    (h1 : find_from st s st.cursor.y = some (st, false))
    (h2 : find_from st s 0 = some (st1, true)) :
    (find_next st s = some (st1, true) ∧ st1.cursor.y < st.cursor.y) ∧
    ((find_next ex7 dl7).map (fun p => (p.1.cursor.y, p.2)) = some (1, true) ∧
     (find_next ex7b dl7).map (fun p => p.2) = some false) := by
  refine ⟨⟨?_, ?_⟩, by decide, by decide⟩
  · simp only [find_next]
    rw [h1]
    dsimp only
    exact h2
  · have hfail := (find_from_go_false _ _ _ h1).2
    obtain ⟨j, x, line, _, hget, hfind, hsucc⟩ := find_from_go_true _ _ _ h2
    have hjlen : j < st.text.length := getQ_some_lt hget
    have hmatch : rowHasMatch st s j = true := by
      simp only [rowHasMatch]
      rw [hget]
      dsimp only
      by_cases hjy : j = st.cursor.y
      · rw [if_pos hjy]
        rw [if_pos hjy] at hfind
        rw [hfind]
        rfl
      · rw [if_neg hjy]
        rw [if_neg hjy] at hfind
        rw [hfind]
        rfl
    have hcy : st1.cursor.y = j := by
      rw [hsucc, find_success_cursor]
    rw [hcy]
    by_contra hge
    have hjy : st.cursor.y ≤ j := Nat.le_of_not_lt hge
    have := hfail j hjy (by omega)
    rw [hmatch] at this
    exact Bool.noConfusion this

/-- Witness for C7: the wrap example itself discharges both hypotheses. -/
theorem c7_witness :
    (find_next ex7 dl7 = some (ex7res, true) ∧ ex7res.cursor.y < ex7.cursor.y) ∧
    ((find_next ex7 dl7).map (fun p => (p.1.cursor.y, p.2)) = some (1, true) ∧
     (find_next ex7b dl7).map (fun p => p.2) = some false) :=
  c7_wraparound ex7 ex7res dl7 (by decide) (by decide)

/-! ### Claim C9 -/

theorem getQ_none_of_le {α : Type} {l : List α} {n : Nat}
    (h : l.length ≤ n) : l.get? n = none := by
  cases hg : l.get? n with
  | none => rfl
  | some a => exact absurd (getQ_some_lt hg) (by omega)

theorem swap_down_spec {st : Fox} {line line_down : List Char}
    (hld : st.text.get? (st.cursor.y + 1) = some line_down)
    (hl : st.text.get? st.cursor.y = some line)
    (hx : st.cursor.x ≤ line.length) :
    (swap_down st).map Fox.text =
      some ((st.text.set st.cursor.y line_down).set (st.cursor.y + 1) line) ∧
    (swap_down st).map Fox.cursor = some ⟨st.cursor.x, st.cursor.y + 1⟩ := by
  rw [swap_down_eq hld hl]
  have hv : ({ st with text :=
      (st.text.set st.cursor.y line_down).set (st.cursor.y + 1) line } : Fox).text.get?
      (vRow ({ st with text :=
      (st.text.set st.cursor.y line_down).set (st.cursor.y + 1) line } : Fox) 1)
      = some line := by
    rw [vRow_one]
    exact getQ_set_self line (by rw [List.length_set]; exact getQ_some_lt hld)
  have hcv := cursor_vertical_cursor_some hv
  rw [vRow_one] at hcv
  have ht := cursor_vertical_text ({ st with
    text := (st.text.set st.cursor.y line_down).set (st.cursor.y + 1) line } : Fox) 1
  constructor
  · dsimp only [Option.map]
    show some (cursor_vertical _ 1).text = _
    rw [ht]
  · dsimp only [Option.map]
    show some (cursor_vertical _ 1).cursor = _
    rw [hcv]
    dsimp only
    rw [Nat.min_eq_left hx]

theorem swap_down_then_up {st1 : Fox} {lp lc : List Char}
    (hlp : st1.text.get? st1.cursor.y = some lp)
    (hlc : st1.text.get? (st1.cursor.y + 1) = some lc)
    (hx : st1.cursor.x ≤ lp.length) :
    ((swap_down st1).map (fun s2 => cursor_vertical s2 (-1))).map Fox.text =
      some ((st1.text.set st1.cursor.y lc).set (st1.cursor.y + 1) lp) ∧
    ((swap_down st1).map (fun s2 => cursor_vertical s2 (-1))).map Fox.cursor =
      some ⟨min st1.cursor.x lc.length, st1.cursor.y⟩ := by
  have hlen1 : st1.cursor.y + 1 < st1.text.length := getQ_some_lt hlc
  have hsd := swap_down_eq hlc hlp
  rw [hsd]
  have hv2 : ({ st1 with
      text := (st1.text.set st1.cursor.y lc).set (st1.cursor.y + 1) lp } : Fox).text.get?
      (vRow ({ st1 with
      text := (st1.text.set st1.cursor.y lc).set (st1.cursor.y + 1) lp } : Fox) 1)
      = some lp := by
    rw [vRow_one]
    exact getQ_set_self lp (by rw [List.length_set]; exact hlen1)
  have hcv2 := cursor_vertical_cursor_some hv2
  rw [vRow_one] at hcv2
  have ht2 := cursor_vertical_text ({ st1 with
    text := (st1.text.set st1.cursor.y lc).set (st1.cursor.y + 1) lp } : Fox) 1
  have hx2 : (cursor_vertical ({ st1 with
      text := (st1.text.set st1.cursor.y lc).set (st1.cursor.y + 1) lp } : Fox) 1).cursor.x
      = st1.cursor.x := by
    rw [hcv2]
    dsimp only
    exact Nat.min_eq_left hx
  have hy2 : (cursor_vertical ({ st1 with
      text := (st1.text.set st1.cursor.y lc).set (st1.cursor.y + 1) lp } : Fox) 1).cursor.y
      = st1.cursor.y + 1 := by
    rw [hcv2]
  have hy2pos : 0 < ({ cursor_vertical ({ st1 with
      text := (st1.text.set st1.cursor.y lc).set (st1.cursor.y + 1) lp } : Fox) 1
      with dirty := true } : Fox).cursor.y := by
    show 0 < (cursor_vertical _ 1).cursor.y
    rw [hy2]
    omega
  have hv3 : ({ cursor_vertical ({ st1 with
      text := (st1.text.set st1.cursor.y lc).set (st1.cursor.y + 1) lp } : Fox) 1
      with dirty := true } : Fox).text.get?
      (vRow ({ cursor_vertical ({ st1 with
      text := (st1.text.set st1.cursor.y lc).set (st1.cursor.y + 1) lp } : Fox) 1
      with dirty := true } : Fox) (-1)) = some lc := by
    rw [vRow_neg1_pos hy2pos]
    show (cursor_vertical _ 1).text.get? ((cursor_vertical _ 1).cursor.y - 1) = some lc
    rw [ht2, hy2]
    dsimp only
    rw [Nat.add_sub_cancel]
    rw [getQ_set_ne lp (by omega)]
    exact getQ_set_self lc (getQ_some_lt hlp)
  have hcv3 := cursor_vertical_cursor_some hv3
  rw [vRow_neg1_pos hy2pos] at hcv3
  constructor
  · dsimp only [Option.map]
    show some (cursor_vertical _ (-1)).text = _
    rw [cursor_vertical_text]
    show some (cursor_vertical _ 1).text = _
    rw [ht2]
  · dsimp only [Option.map]
    show some (cursor_vertical _ (-1)).cursor = _
    rw [hcv3]
    dsimp only
    rw [hx2, hy2, Nat.add_sub_cancel]

theorem swap_up_spec_pos {st : Fox} {lp lc : List Char}
    (hp : st.text.get? (st.cursor.y - 1) = some lp)
    (hl : st.text.get? st.cursor.y = some lc)
    (hy1 : 1 ≤ st.cursor.y) (hx : st.cursor.x ≤ lc.length) :
    (swap_up st).map Fox.text =
      some ((st.text.set (st.cursor.y - 1) lc).set st.cursor.y lp) ∧
    (swap_up st).map Fox.cursor =
      some ⟨min st.cursor.x lp.length, st.cursor.y - 1⟩ := by
  have hy0 : 0 < st.cursor.y := hy1
  have hv1 : st.text.get? (vRow st (-1)) = some lp := by
    rw [vRow_neg1_pos hy0]
    exact hp
  have hcv1 := cursor_vertical_cursor_some hv1
  rw [vRow_neg1_pos hy0] at hcv1
  have ht1 := cursor_vertical_text st (-1)
  have hlp' : (cursor_vertical st (-1)).text.get?
      (cursor_vertical st (-1)).cursor.y = some lp := by
    rw [ht1, hcv1]
    exact hp
  have hlc' : (cursor_vertical st (-1)).text.get?
      ((cursor_vertical st (-1)).cursor.y + 1) = some lc := by
    rw [ht1, hcv1]
    dsimp only
    rw [Nat.sub_add_cancel hy1]
    exact hl
  have hx' : (cursor_vertical st (-1)).cursor.x ≤ lp.length := by
    rw [hcv1]
    dsimp only
    exact Nat.min_le_right _ _
  obtain ⟨hT, hC⟩ := swap_down_then_up hlp' hlc' hx'
  simp only [swap_up]
  constructor
  · rw [hT, ht1, hcv1]
    dsimp only
    rw [Nat.sub_add_cancel hy1]
  · rw [hC, hcv1]
    dsimp only
    rw [Nat.min_eq_left (Nat.le_trans (Nat.min_le_left _ _) hx)]

theorem swap_up_spec_zero_multi {st : Fox} {l0 l1 : List Char}
    (hy0 : st.cursor.y = 0)
    (h0 : st.text.get? 0 = some l0) (h1 : st.text.get? 1 = some l1)
    (hx : st.cursor.x ≤ l0.length) :
    (swap_up st).map Fox.text = some ((st.text.set 0 l1).set 1 l0) ∧
    (swap_up st).map Fox.cursor = some ⟨min st.cursor.x l1.length, 0⟩ := by
  have hnpos : ¬ 0 < st.cursor.y := by omega
  have hv1 : st.text.get? (vRow st (-1)) = some l0 := by
    rw [vRow_neg1_zero hnpos, hy0]
    exact h0
  have hcv1 := cursor_vertical_cursor_some hv1
  rw [vRow_neg1_zero hnpos] at hcv1
  have ht1 := cursor_vertical_text st (-1)
  have hlp' : (cursor_vertical st (-1)).text.get?
      (cursor_vertical st (-1)).cursor.y = some l0 := by
    rw [ht1, hcv1]
    dsimp only
    rw [hy0]
    exact h0
  have hlc' : (cursor_vertical st (-1)).text.get?
      ((cursor_vertical st (-1)).cursor.y + 1) = some l1 := by
    rw [ht1, hcv1]
    dsimp only
    rw [hy0]
    exact h1
  have hx' : (cursor_vertical st (-1)).cursor.x ≤ l0.length := by
    rw [hcv1]
    dsimp only
    exact Nat.min_le_right _ _
  obtain ⟨hT, hC⟩ := swap_down_then_up hlp' hlc' hx'
  simp only [swap_up]
  constructor
  · rw [hT, ht1, hcv1]
    dsimp only
    rw [hy0]
  · rw [hC, hcv1]
    dsimp only
    rw [hy0, Nat.min_eq_left hx]

theorem swap_up_spec_zero_single {st : Fox} {l0 : List Char}
    (hy0 : st.cursor.y = 0) (hlen : st.text.length = 1)
    (h0 : st.text.get? 0 = some l0) (hx : st.cursor.x ≤ l0.length) :
    (swap_up st).map Fox.text = some st.text ∧
    (swap_up st).map Fox.cursor = some st.cursor := by
  have hnpos : ¬ 0 < st.cursor.y := by omega
  have hv1 : st.text.get? (vRow st (-1)) = some l0 := by
    rw [vRow_neg1_zero hnpos, hy0]
    exact h0
  have hcv1 := cursor_vertical_cursor_some hv1
  rw [vRow_neg1_zero hnpos] at hcv1
  have ht1 := cursor_vertical_text st (-1)
  have hnone : (cursor_vertical st (-1)).text.get?
      ((cursor_vertical st (-1)).cursor.y + 1) = none := by
    rw [ht1, hcv1]
    dsimp only
    exact getQ_none_of_le (by omega)
  have hnpos2 : ¬ 0 < (cursor_vertical st (-1)).cursor.y := by
    rw [hcv1]
    dsimp only
    omega
  simp only [swap_up]
  rw [swap_down_noop hnone]
  dsimp only [Option.map]
  have hv3 : (cursor_vertical st (-1)).text.get?
      (vRow (cursor_vertical st (-1)) (-1)) = some l0 := by
    rw [vRow_neg1_zero hnpos2, ht1, hcv1]
    dsimp only
    rw [hy0]
    exact h0
  have hcv3 := cursor_vertical_cursor_some hv3
  rw [vRow_neg1_zero hnpos2] at hcv3
  constructor
  · show some (cursor_vertical _ (-1)).text = _
    rw [cursor_vertical_text, ht1]
  · show some (cursor_vertical _ (-1)).cursor = _
    rw [hcv3, hcv1]
    dsimp only
    rw [Nat.min_eq_left hx, Nat.min_eq_left hx]

/-- Document `["ab","cd"]` with the cursor at (0,0): the claim expects
`swap_up` at the top boundary to be a no-op. -/
def c9a : Fox := mkFox [['a','b'], ['c','d']] 0 0 0 0

/-- Document `["x","abcd"]` with the cursor at column 4 of row 1: the claim
expects `swap_up` to keep the column at 4. -/
def c9b : Fox := mkFox [['x'], ['a','b','c','d']] 4 1 4 1

/-- C9 counterexample: `swap_up` at row 0 of a two-line buffer is not a
no-op (it swaps lines 0 and 1), and `swap_up` from a long line onto a short
one does not keep the column unchanged (4 becomes 1). -/
theorem c9_counterexample :
    ((swap_up c9a).map Fox.text = some [['c','d'], ['a','b']] ∧
      ¬ (swap_up c9a).map Fox.text = some c9a.text) ∧
    ((swap_up c9b).map (fun s2 => s2.cursor.x) = some 1 ∧
      ¬ (swap_up c9b).map (fun s2 => s2.cursor.x) = some 4) := by decide

/-- C9 amended: `swap_down` exchanges the current line with the next one,
is a no-op at the last row, and the cursor follows the moved line with its
column unchanged.  `swap_up` from a row ≥ 1 exchanges the current line with
the previous one and the cursor follows to the row above, but its column is
clamped to the previous line's pre-swap length; `swap_up` at row 0 is a
document/cursor no-op only in a one-line buffer — with two or more lines it
swaps lines 0 and 1, leaves the cursor on row 0 (now holding the old second
line) and clamps the column to that line's length. -/
theorem c9_amended_swap_behavior (st : Fox)
    (h1 : st.cursor.y < st.text.length)
    (h2 : st.cursor.x ≤ lineLenAt st st.cursor.y) :
    (st.text.length ≤ st.cursor.y + 1 → swap_down st = some st) ∧
    (st.cursor.y + 1 < st.text.length →
      (swap_down st).map Fox.text =
        some ((st.text.set st.cursor.y (lineAt st (st.cursor.y + 1))).set
          (st.cursor.y + 1) (lineAt st st.cursor.y)) ∧
      (swap_down st).map Fox.cursor = some ⟨st.cursor.x, st.cursor.y + 1⟩) ∧
    (1 ≤ st.cursor.y →
      (swap_up st).map Fox.text =
        some ((st.text.set (st.cursor.y - 1) (lineAt st st.cursor.y)).set
          st.cursor.y (lineAt st (st.cursor.y - 1))) ∧
      (swap_up st).map Fox.cursor =
        some ⟨min st.cursor.x (lineAt st (st.cursor.y - 1)).length, st.cursor.y - 1⟩) ∧
    (st.cursor.y = 0 → st.text.length = 1 →
      (swap_up st).map Fox.text = some st.text ∧
      (swap_up st).map Fox.cursor = some st.cursor) ∧
    (st.cursor.y = 0 → 2 ≤ st.text.length →
      (swap_up st).map Fox.text =
        some ((st.text.set 0 (lineAt st 1)).set 1 (lineAt st 0)) ∧
      (swap_up st).map Fox.cursor = some ⟨min st.cursor.x (lineAt st 1).length, 0⟩) := by
  obtain ⟨line, hl⟩ := getQ_isSome_of_lt h1
  rw [lineLenAt_eq hl] at h2
  refine ⟨?_, ?_, ?_, ?_, ?_⟩
  · intro hb
    exact swap_down_noop (getQ_none_of_le hb)
  · intro hlt
    obtain ⟨ld, hld⟩ := getQ_isSome_of_lt hlt
    rw [lineAt_eq hld, lineAt_eq hl]
    exact swap_down_spec hld hl h2
  · intro hy1
    obtain ⟨lp, hp⟩ := getQ_isSome_of_lt (Nat.lt_of_le_of_lt (Nat.sub_le _ _) h1)
    rw [lineAt_eq hl, lineAt_eq hp]
    exact swap_up_spec_pos hp hl hy1 h2
  · intro hy0 hlen1
    exact swap_up_spec_zero_single hy0 hlen1 (hy0 ▸ hl) h2
  · intro hy0 hlen2
    obtain ⟨l1, h1'⟩ := getQ_isSome_of_lt (show 1 < st.text.length from hlen2)
    rw [lineAt_eq h1', lineAt_eq (show st.text.get? 0 = some line from hy0 ▸ hl)]
    exact swap_up_spec_zero_multi hy0 (hy0 ▸ hl) h1' h2

/-- Witness for C9 at `c9b` (cursor at column 4 of the second row "abcd"
below "x"): the swap-up case applies with the column clamped to 1. -/
theorem c9_witness :
    (c9b.text.length ≤ c9b.cursor.y + 1 → swap_down c9b = some c9b) ∧
    (c9b.cursor.y + 1 < c9b.text.length →
      (swap_down c9b).map Fox.text =
        some ((c9b.text.set c9b.cursor.y (lineAt c9b (c9b.cursor.y + 1))).set
          (c9b.cursor.y + 1) (lineAt c9b c9b.cursor.y)) ∧
      (swap_down c9b).map Fox.cursor = some ⟨c9b.cursor.x, c9b.cursor.y + 1⟩) ∧
    (1 ≤ c9b.cursor.y →
      (swap_up c9b).map Fox.text =
        some ((c9b.text.set (c9b.cursor.y - 1) (lineAt c9b c9b.cursor.y)).set
          c9b.cursor.y (lineAt c9b (c9b.cursor.y - 1))) ∧
      (swap_up c9b).map Fox.cursor =
        some ⟨min c9b.cursor.x (lineAt c9b (c9b.cursor.y - 1)).length, c9b.cursor.y - 1⟩) ∧
    (c9b.cursor.y = 0 → c9b.text.length = 1 →
      (swap_up c9b).map Fox.text = some c9b.text ∧
      (swap_up c9b).map Fox.cursor = some c9b.cursor) ∧
    (c9b.cursor.y = 0 → 2 ≤ c9b.text.length →
      (swap_up c9b).map Fox.text =
        some ((c9b.text.set 0 (lineAt c9b 1)).set 1 (lineAt c9b 0)) ∧
      (swap_up c9b).map Fox.cursor = some ⟨min c9b.cursor.x (lineAt c9b 1).length, 0⟩) :=
  c9_amended_swap_behavior c9b (by decide) (by decide)

/-! ### Claim C1 -/

/-- C1 counterexample: a 0-byte existing file splits into zero lines, so
the freshly loaded state — reachable with zero operations — already
violates `row ∈ [0, lineCount−1]` (there is no row at all), and pressing
Right immediately panics in `cursor_horizontal`'s bounds check
(`text[cursor.y]` on an empty vector). -/
theorem c1_counterexample :
    ReachableFrom (loadInit (some []) 5) (loadInit (some []) 5) ∧
    ¬ (loadInit (some []) 5).cursor.y < (loadInit (some []) 5).text.length ∧
    step Op.right (loadInit (some []) 5) = StepRes.crash :=
  ⟨ReachableFrom.refl, by decide, by decide⟩

/-- C1 amended: provided the freshly loaded document has at least one line
(every load except a 0-byte existing file), every state reachable by any
sequence of main-loop operations keeps the cursor row within
`[0, lineCount−1]` and the cursor column within `[0, length(line[row])]`,
and no operation ever signals an error (no step can panic). -/
theorem c1_amended_cursor_invariant (file : Option (List (List Char))) (hh : Nat)
    (hne : file ≠ some []) (st : Fox)
    (hr : ReachableFrom (loadInit file hh) st) (op : Op) :
    (st.cursor.y < st.text.length ∧ st.cursor.x ≤ lineLenAt st st.cursor.y) ∧
    step op st ≠ StepRes.crash := by
  have hinv := reachable_inv hne hr
  exact ⟨⟨hinv.1, hinv.2.1⟩, (step_no_crash_and_inv op hinv).1⟩

/-- Witness for C1: the fresh single-empty-line buffer of a new file. -/
theorem c1_witness :
    ((loadInit none 5).cursor.y < (loadInit none 5).text.length ∧
      (loadInit none 5).cursor.x ≤
        lineLenAt (loadInit none 5) (loadInit none 5).cursor.y) ∧
    step Op.right (loadInit none 5) ≠ StepRes.crash :=
  c1_amended_cursor_invariant none 5 (by decide) _ ReachableFrom.refl Op.right
